import Mathlib

/-!
# Verification of the dicomsdl data-set engine and pixel-decode pipeline

A shallow embedding of the DICOM toolkit's core: the binary reader that
turns a byte stream into a tree of typed elements, the data-set /
data-element model with its lookup contract, the serializer, and the
pixel-decode pipeline (`to_array`, `decode_into`, `to_array_view`) with
its frame/buffer/thread validation rules.

The native C++ core of the repository is not part of the source tree
(only its Python-facing tests, bindings and build tooling are), so the
engine itself is modelled from the specification, faithful to its words;
each such definition carries a doc comment starting `Modelled from the
spec:`.  The Python code that is present (the image-conversion helper
`_image.py`) is embedded directly from the source.

Bytes are `Nat` values below 256, byte streams are `List Nat`, machine
integers are `Nat`/`Int` with explicit bounds.  All definitions are
executable and fuel-based where the source loops over the stream, so
concrete byte streams evaluate inside the kernel.
-/

namespace DicomSdl

/-! ## Byte-level primitives -/

/-- Little-endian 16-bit read of two bytes. -/
def u16 (b0 b1 : Nat) : Nat := b0 + 256 * b1

/-- Little-endian 32-bit read of four bytes. -/
def u32 (b0 b1 b2 b3 : Nat) : Nat :=
  b0 + 256 * b1 + 65536 * b2 + 16777216 * b3

/-- Little-endian 16-bit write. -/
def w16 (n : Nat) : List Nat := [n % 256, n / 256 % 256]

/-- Little-endian 32-bit write. -/
def w32 (n : Nat) : List Nat :=
  [n % 256, n / 256 % 256, n / 65536 % 256, n / 16777216 % 256]

/-- Serialize a list of 32-bit values (the Basic Offset Table payload). -/
def w32s : List Nat → List Nat
  | [] => []
  | n :: rest => w32 n ++ w32s rest

/-- Group a byte list into 32-bit little-endian values; `none` unless the
length is a multiple of four. -/
def chunk32 : List Nat → Option (List Nat)
  | [] => some []
  | b0 :: b1 :: b2 :: b3 :: rest =>
    match chunk32 rest with
    | some vs => some (u32 b0 b1 b2 b3 :: vs)
    | none => none
  | _ => none

/-! ## Tag / VR model -/

/-- Modelled from the spec: VR is an enumerated type of two-letter codes
per the standard, a synthetic pixel-sequence marker `PX`, and a
"none/missing" sentinel used by the missing-element lookup result. -/
inductive VR where
  | none | AE | AS | AT | CS | DA | DS | DT | FL | FD | IS | LO | LT
  | OB | OD | OF | OL | OV | OW | PN | SH | SL | SQ | SS | ST | TM
  | UC | UI | UL | UN | UR | US | UT | PX
  deriving DecidableEq, Repr

/-- Modelled from the spec: VRs whose explicit encoding carries a two-byte
reserved field and a four-byte length (the test helper lists exactly
OB OD OF OL OV OW SQ UC UR UT UN). -/
def VR.isLong : VR → Bool
  | .OB | .OD | .OF | .OL | .OV | .OW | .SQ | .UC | .UR | .UT | .UN | .PX => true
  | _ => false

/-- Classification predicate: is this VR the sequence VR? -/
def VR.is_sequence : VR → Bool
  | .SQ => true
  | _ => false

/-- Classification predicate: is this VR the synthetic pixel-sequence
marker? -/
def VR.is_pixel_sequence : VR → Bool
  | .PX => true
  | _ => false

/-- Classification predicate: binary (non-text, non-sequence) VRs. -/
def VR.is_binary : VR → Bool
  | .AT | .FL | .FD | .OB | .OD | .OF | .OL | .OV | .OW | .SL | .SS
  | .UL | .UN | .US | .PX => true
  | _ => false

/-- The table of two-letter explicit VR codes (ASCII byte pairs). -/
def vrCodeTable : List (Nat × Nat × VR) :=
  [ (65, 69, .AE), (65, 83, .AS), (65, 84, .AT), (67, 83, .CS),
    (68, 65, .DA), (68, 83, .DS), (68, 84, .DT), (70, 76, .FL),
    (70, 68, .FD), (73, 83, .IS), (76, 79, .LO), (76, 84, .LT),
    (79, 66, .OB), (79, 68, .OD), (79, 70, .OF), (79, 76, .OL),
    (79, 86, .OV), (79, 87, .OW), (80, 78, .PN), (83, 72, .SH),
    (83, 76, .SL), (83, 81, .SQ), (83, 83, .SS), (83, 84, .ST),
    (84, 77, .TM), (85, 67, .UC), (85, 73, .UI), (85, 76, .UL),
    (85, 78, .UN), (85, 82, .UR), (85, 83, .US), (85, 84, .UT) ]

/-- Decode a two-byte explicit VR code from the stream; `none` for an
invalid code (a `ParseError` per the spec's error policy).  The synthetic
`PX` and the missing sentinel have no stream encoding. -/
def vrOfCode (c0 c1 : Nat) : Option VR :=
  (vrCodeTable.find? (fun t => t.1 == c0 && t.2.1 == c1)).map (fun t => t.2.2)

/-- Two-byte explicit code emitted by the serializer for each VR; the
synthetic pixel-sequence marker is re-emitted as `OB` (the writer
normalizes encoding choices) and the missing sentinel never reaches the
stream. -/
def codeOfVR : VR → Nat × Nat
  | .AE => (65, 69) | .AS => (65, 83) | .AT => (65, 84) | .CS => (67, 83)
  | .DA => (68, 65) | .DS => (68, 83) | .DT => (68, 84) | .FL => (70, 76)
  | .FD => (70, 68) | .IS => (73, 83) | .LO => (76, 79) | .LT => (76, 84)
  | .OB => (79, 66) | .OD => (79, 68) | .OF => (79, 70) | .OL => (79, 76)
  | .OV => (79, 86) | .OW => (79, 87) | .PN => (80, 78) | .SH => (83, 72)
  | .SL => (83, 76) | .SQ => (83, 81) | .SS => (83, 83) | .ST => (83, 84)
  | .TM => (84, 77) | .UC => (85, 67) | .UI => (85, 73) | .UL => (85, 76)
  | .UN => (85, 78) | .UR => (85, 82) | .US => (85, 83) | .UT => (85, 84)
  | .PX => (79, 66) | .none => (0, 0)

/-! ## Data Set / Data Element model

Modelled from the spec: a `DataElement` carries a tag (packed 32-bit
group/element), a VR, a diagnostic stream offset, and either a raw value
payload, an owned child sequence (ordered list of child data sets), or an
owned pixel sequence (Basic Offset Table plus ordered fragments).  A
`DataSet` is the ordered list of its elements. -/

mutual

inductive DElem where
  | mk (tag : Nat) (vr : VR) (off : Nat) (val : DValue)
  deriving Repr

inductive DValue where
  | raw (data : List Nat)
  | sq (items : List (List DElem))
  | px (bot : List Nat) (frags : List (List Nat))
  deriving Repr

end

/-- A DataSet: ordered-by-tag, tag-unique list of elements. -/
abbrev DataSet := List DElem

def DElem.tag : DElem → Nat
  | .mk t _ _ _ => t

def DElem.vr : DElem → VR
  | .mk _ v _ _ => v

def DElem.off : DElem → Nat
  | .mk _ _ o _ => o

def DElem.val : DElem → DValue
  | .mk _ _ _ x => x

/-- The child sequence of a sequence element (`elem.sequence`, defined
only when the VR is the sequence VR). -/
def DElem.sequence : DElem → Option (List DataSet)
  | .mk _ _ _ (.sq items) => some items
  | _ => Option.none

/-- The pixel sequence of an encapsulated pixel element
(`elem.pixel_sequence`): Basic Offset Table and fragment list. -/
def DElem.pixel_sequence : DElem → Option (List Nat × List (List Nat))
  | .mk _ _ _ (.px bot frags) => some (bot, frags)
  | _ => Option.none

/-- Modelled from the spec: `number_of_frames` of a pixel sequence is
derived from the Basic Offset Table when present, else inferred from the
fragment boundaries (one fragment per frame when no table is present). -/
def pixelSequenceNumberOfFrames (bot : List Nat) (frags : List (List Nat)) : Nat :=
  if bot.isEmpty then frags.length else bot.length

mutual

/-- Node-count measure of an element, used as parser fuel bound. -/
def sizeE : DElem → Nat
  | .mk _ _ _ v => 1 + sizeV v

def sizeV : DValue → Nat
  | .raw _ => 0
  | .px _ frags => 3 + frags.length
  | .sq items => 1 + sizeItems items

def sizeItems : List (List DElem) → Nat
  | [] => 1
  | ds :: rest => 1 + sizeEls ds + sizeItems rest

def sizeEls : DataSet → Nat
  | [] => 1
  | e :: rest => 1 + sizeE e + sizeEls rest

end

mutual

/-- Erase the diagnostic stream offsets of an element, recursively.
Structural equivalence of parse results (same tags, VRs, decoded values,
frames and fragments — everything except the byte offsets) is equality
after `stripE`. -/
def stripE : DElem → DElem
  | .mk t v _ x => .mk t v 0 (stripV x)

def stripV : DValue → DValue
  | .raw d => .raw d
  | .sq items => .sq (stripItems items)
  | .px b f => .px b f

def stripItems : List (List DElem) → List (List DElem)
  | [] => []
  | d :: rest => stripEls d :: stripItems rest

def stripEls : DataSet → DataSet
  | [] => []
  | e :: rest => stripE e :: stripEls rest

end

/-! ## Lookup contract and mutation API -/

/-- Modelled from the spec: the missing-element sentinel returned by
lookups that fail; it carries VR = "none", is falsy, and satisfies
`is_missing()` / not `is_present()`. -/
def missingElement : DElem := .mk 0 .none 0 (.raw [])

/-- `is_present()`: the element is a real element, not the sentinel. -/
def DElem.is_present (e : DElem) : Bool := e.vr != VR.none

/-- `is_missing()`: the element is the missing-element sentinel. -/
def DElem.is_missing (e : DElem) : Bool := e.vr == VR.none

/-- Python truthiness of a DataElement: true exactly when present. -/
def DElem.truthy (e : DElem) : Bool := e.is_present

/-- Is an element with this tag present in the data set? -/
def hasTag (ds : DataSet) (tag : Nat) : Bool :=
  ds.any (fun e => e.tag == tag)

/-- Modelled from the spec: `get_dataelement(tag) -> DataElement` never
fails; unresolved lookups yield the missing-element sentinel. -/
def get_dataelement (ds : DataSet) (tag : Nat) : DElem :=
  match ds.find? (fun e => e.tag == tag) with
  | some e => e
  | Option.none => missingElement

/-- Modelled from the spec: the Dictionary Lookup Port's
`resolve_keyword(keyword) -> (tag, VR) | none`, backed externally by
generated perfect-hash static tables (an external collaborator); here a
finite read-only table holding the entries this development touches. -/
def keyword_to_tag_vr (kw : String) : Option (Nat × VR) :=
  if kw = "PatientName" then some (0x00100010, .PN)
  else if kw = "Rows" then some (0x00280010, .US)
  else if kw = "Columns" then some (0x00280011, .US)
  else if kw = "BitsAllocated" then some (0x00280100, .US)
  else if kw = "BitsStored" then some (0x00280101, .US)
  else if kw = "PixelRepresentation" then some (0x00280103, .US)
  else if kw = "SamplesPerPixel" then some (0x00280002, .US)
  else if kw = "NumberOfFrames" then some (0x00280008, .IS)
  else if kw = "PhotometricInterpretation" then some (0x00280004, .CS)
  else if kw = "RescaleIntercept" then some (0x00281052, .DS)
  else if kw = "RescaleSlope" then some (0x00281053, .DS)
  else if kw = "WindowCenter" then some (0x00281050, .DS)
  else if kw = "WindowWidth" then some (0x00281051, .DS)
  else if kw = "TransferSyntaxUID" then some (0x00020010, .UI)
  else if kw = "PixelData" then some (0x7FE00010, .OW)
  else if kw = "ReferencedStudySequence" then some (0x00081110, .SQ)
  else if kw = "PlanarConfiguration" then some (0x00280006, .US)
  else Option.none

/-- `get_dataelement` accepting a keyword, resolved through the
Dictionary Lookup Port; an unknown keyword yields the sentinel. -/
def get_dataelement_kw (ds : DataSet) (kw : String) : DElem :=
  match keyword_to_tag_vr kw with
  | some (t, _) => get_dataelement ds t
  | Option.none => missingElement

/-- Is the keyword resolvable and its tag present in the data set? -/
def hasKeyword (ds : DataSet) (kw : String) : Bool :=
  match keyword_to_tag_vr kw with
  | some (t, _) => hasTag ds t
  | Option.none => false

/-- Modelled from the spec: `add_dataelement` mutates the owning
DataSet's element map in place, keeping it ordered by tag and tag-unique
(insertion reorders or replaces). -/
def add_dataelement (ds : DataSet) (e : DElem) : DataSet :=
  match ds with
  | [] => [e]
  | x :: rest =>
    if e.tag < x.tag then e :: x :: rest
    else if e.tag = x.tag then e :: rest
    else x :: add_dataelement rest e

/-- Modelled from the spec: `remove_dataelement` removes the element with
the given tag; removal of a non-existent tag is a no-op, not an error. -/
def remove_dataelement (ds : DataSet) (tag : Nat) : DataSet :=
  ds.filter (fun e => e.tag != tag)

/-! ## Serializer

Modelled from the spec: `write_bytes` re-emits the preamble/signature and
the data set using explicit-VR little-endian encoding, re-deriving VR and
length fields from the in-memory element rather than trusting stale
stream offsets.  Sequences are re-emitted with undefined length and
explicit end-of-sequence/end-of-item delimiters; encapsulated pixel data
is re-emitted fragment-by-fragment with the original Basic Offset
Table. -/

/-- The four tag bytes: group then element, each little-endian. -/
def tagBytes (tag : Nat) : List Nat := w16 (tag / 65536) ++ w16 (tag % 65536)

/-- The reserved "undefined length" sentinel. -/
def undefLen : Nat := 4294967295

/-- An item header `(FFFE,E000)` with the given defined length. -/
def itemHeader (len : Nat) : List Nat := w16 65534 ++ w16 57344 ++ w32 len

/-- A delimiter item `(FFFE,elem)` with zero length (`E00D` ends an
undefined-length item, `E0DD` ends a sequence). -/
def delimBytes (elem : Nat) : List Nat := w16 65534 ++ w16 elem ++ w32 0

/-- Serialize the fragments of an encapsulated pixel stream, one item
per fragment. -/
def writeFrags : List (List Nat) → List Nat
  | [] => []
  | f :: rest => itemHeader f.length ++ f ++ writeFrags rest

mutual

/-- Serialize one element under explicit-VR little-endian rules. -/
def writeE : DElem → List Nat
  | .mk tag vr _ val =>
    match val with
    | .raw d =>
      tagBytes tag ++ [(codeOfVR vr).1, (codeOfVR vr).2] ++
        (if vr.isLong then [0, 0] ++ w32 d.length else w16 d.length) ++ d
    | .sq items =>
      tagBytes tag ++ [83, 81] ++ [0, 0] ++ w32 undefLen ++
        writeItems items ++ delimBytes 57565
    | .px bot frags =>
      tagBytes tag ++ [79, 66] ++ [0, 0] ++ w32 undefLen ++
        itemHeader (4 * bot.length) ++ w32s bot ++
        writeFrags frags ++ delimBytes 57565

/-- Serialize the elements of a data set in their stored tag order. -/
def writeEls : DataSet → List Nat
  | [] => []
  | e :: rest => writeE e ++ writeEls rest

/-- Serialize sequence items, each with undefined length and an explicit
end-of-item delimiter. -/
def writeItems : List (List DElem) → List Nat
  | [] => []
  | ds :: rest =>
    itemHeader undefLen ++ writeEls ds ++ delimBytes 57357 ++ writeItems rest

end

/-! ## Binary Reader

Modelled from the spec: `parse(bytes, options) -> DicomFile` detects the
preamble/signature and parses the file-meta group and main data set.
The model covers explicit-VR little-endian streams (the transfer syntax
of all test vectors); implicit-VR resolution through the Dictionary
Lookup Port and big-endian streams are not modelled.  Structural
violations (truncated length, tag ordering violations, bad VR code,
undefined length on a non-sequence VR) are faults carrying the byte
offset; the reader is fuel-based, with fuel bounded by the buffer length
so that fuel can never be exhausted on a real stream before the stream
itself ends. -/

/-- The kinds of structural parse faults. -/
inductive FaultKind where
  | fuelExhausted
  | truncatedHeader
  | truncatedValue
  | badVRCode
  | badUndefinedLength
  | tagOrderViolation
  | unexpectedDelimiter
  | missingItemDelimiter
  | badItemTag
  | badOffsetTable
  deriving DecidableEq, Repr

/-- Human-readable description of a fault kind (every description is a
non-empty string; the byte offset is carried alongside). -/
def FaultKind.describe : FaultKind → String
  | .fuelExhausted => "internal fuel exhausted"
  | .truncatedHeader => "truncated element header"
  | .truncatedValue => "declared element length exceeds remaining buffer"
  | .badVRCode => "invalid VR code"
  | .badUndefinedLength => "undefined length on a non-sequence element"
  | .tagOrderViolation => "tag ordering violation"
  | .unexpectedDelimiter => "unexpected item or delimiter tag"
  | .missingItemDelimiter => "item delimiter missing"
  | .badItemTag => "expected an item tag"
  | .badOffsetTable => "malformed basic offset table"

/-- A structural parse fault: kind plus byte offset. -/
structure Fault where
  kind : FaultKind
  off : Nat
  deriving DecidableEq, Repr

/-- The tag-ordering check: tags must be strictly increasing within one
data set. -/
def tagOrderOk : Option Nat → Nat → Bool
  | Option.none, _ => true
  | some t, tag => t < tag

mutual

/-- Element loop of the reader.  `inItem` marks whether the loop is the
body of an undefined-length item (terminated by the `(FFFE,E00D)` item
delimiter) or a whole buffer (terminated by its end).  Returns the
elements parsed so far, the remaining bytes, the next offset, and the
first fault if one occurred — partial data is preserved, never
dropped. -/
def pElems : Nat → List Nat → Nat → Bool → Option Nat → List DElem →
    List DElem × List Nat × Nat × Option Fault
  | 0, b, off, _, _, acc => (acc, b, off, some ⟨.fuelExhausted, off⟩)
  | fuel + 1, b, off, inItem, lastTag, acc =>
    match b with
    | [] =>
      if inItem then (acc, [], off, some ⟨.missingItemDelimiter, off⟩)
      else (acc, [], off, Option.none)
    | g0 :: g1 :: e0 :: e1 :: rest =>
      if u16 g0 g1 = 65534 then
        if inItem ∧ u16 e0 e1 = 57357 then
          match rest with
          | _ :: _ :: _ :: _ :: rest2 => (acc, rest2, off + 8, Option.none)
          | _ => (acc, rest, off, some ⟨.truncatedHeader, off⟩)
        else (acc, b, off, some ⟨.unexpectedDelimiter, off⟩)
      else
        if tagOrderOk lastTag (u16 g0 g1 * 65536 + u16 e0 e1) then
          match pElem fuel b off with
          | .error (f, salvage) => (acc ++ salvage, [], off, some f)
          | .ok (el, rest2, off2) =>
            pElems fuel rest2 off2 inItem (some (u16 g0 g1 * 65536 + u16 e0 e1))
              (acc ++ [el])
        else (acc, b, off, some ⟨.tagOrderViolation, off⟩)
    | _ => (acc, b, off, some ⟨.truncatedHeader, off⟩)

/-- Parse one element: tag, explicit VR code, 2- or 4-byte length, then
the value — a raw payload, a recursively parsed item sequence, or an
encapsulated pixel sequence when the length is the undefined sentinel.
On a truncated value the partially-read element is salvaged (second
component of the error) so that the tolerant mode can preserve it. -/
def pElem : Nat → List Nat → Nat →
    Except (Fault × List DElem) (DElem × List Nat × Nat)
  | 0, _, off => .error (⟨.fuelExhausted, off⟩, [])
  | fuel + 1, b, off =>
    match b with
    | g0 :: g1 :: e0 :: e1 :: v0 :: v1 :: rest =>
      match vrOfCode v0 v1 with
      | Option.none => .error (⟨.badVRCode, off⟩, [])
      | some vr =>
        if vr.isLong then
          match rest with
          | _ :: _ :: l0 :: l1 :: l2 :: l3 :: rest2 =>
            if u32 l0 l1 l2 l3 = undefLen then
              if vr = .SQ then
                match pItems fuel rest2 (off + 12) true [] with
                | .error f => .error (f, [])
                | .ok (items, rest3, off3) =>
                  .ok (.mk (u16 g0 g1 * 65536 + u16 e0 e1) .SQ off (.sq items),
                    rest3, off3)
              else if vr = .OB ∨ vr = .OW ∨ vr = .UN then
                match pPixSeq fuel rest2 (off + 12) with
                | .error f => .error (f, [])
                | .ok (bot, frags, rest3, off3) =>
                  .ok (.mk (u16 g0 g1 * 65536 + u16 e0 e1) .PX off (.px bot frags),
                    rest3, off3)
              else .error (⟨.badUndefinedLength, off⟩, [])
            else if vr = .SQ then
              if rest2.length < u32 l0 l1 l2 l3 then
                .error (⟨.truncatedValue, off⟩, [])
              else
                match pItems fuel (rest2.take (u32 l0 l1 l2 l3)) (off + 12) false [] with
                | .error f => .error (f, [])
                | .ok (items, _, _) =>
                  .ok (.mk (u16 g0 g1 * 65536 + u16 e0 e1) .SQ off (.sq items),
                    rest2.drop (u32 l0 l1 l2 l3), off + 12 + u32 l0 l1 l2 l3)
            else if rest2.length < u32 l0 l1 l2 l3 then
              .error (⟨.truncatedValue, off⟩,
                [.mk (u16 g0 g1 * 65536 + u16 e0 e1) vr off (.raw rest2)])
            else
              .ok (.mk (u16 g0 g1 * 65536 + u16 e0 e1) vr off
                  (.raw (rest2.take (u32 l0 l1 l2 l3))),
                rest2.drop (u32 l0 l1 l2 l3), off + 12 + u32 l0 l1 l2 l3)
          | _ => .error (⟨.truncatedHeader, off⟩, [])
        else
          match rest with
          | l0 :: l1 :: rest2 =>
            if rest2.length < u16 l0 l1 then
              .error (⟨.truncatedValue, off⟩,
                [.mk (u16 g0 g1 * 65536 + u16 e0 e1) vr off (.raw rest2)])
            else
              .ok (.mk (u16 g0 g1 * 65536 + u16 e0 e1) vr off
                  (.raw (rest2.take (u16 l0 l1))),
                rest2.drop (u16 l0 l1), off + 8 + u16 l0 l1)
          | _ => .error (⟨.truncatedHeader, off⟩, [])
    | _ => .error (⟨.truncatedHeader, off⟩, [])

/-- Parse sequence items.  `delimited` items end at the `(FFFE,E0DD)`
sequence delimiter (undefined-length sequence); otherwise the item loop
is bounded by a defined sequence length and ends with the buffer. -/
def pItems : Nat → List Nat → Nat → Bool → List (List DElem) →
    Except Fault (List (List DElem) × List Nat × Nat)
  | 0, _, off, _, _ => .error ⟨.fuelExhausted, off⟩
  | fuel + 1, b, off, delimited, acc =>
    match b with
    | [] =>
      if delimited then .error ⟨.missingItemDelimiter, off⟩
      else .ok (acc, [], off)
    | g0 :: g1 :: e0 :: e1 :: l0 :: l1 :: l2 :: l3 :: rest =>
      if u16 g0 g1 = 65534 ∧ u16 e0 e1 = 57565 then .ok (acc, rest, off + 8)
      else if u16 g0 g1 = 65534 ∧ u16 e0 e1 = 57344 then
        if u32 l0 l1 l2 l3 = undefLen then
          match pElems fuel rest (off + 8) true Option.none [] with
          | (els, rest2, off2, Option.none) =>
            pItems fuel rest2 off2 delimited (acc ++ [els])
          | (_, _, _, some f) => .error f
        else if rest.length < u32 l0 l1 l2 l3 then .error ⟨.truncatedValue, off⟩
        else
          match pElems fuel (rest.take (u32 l0 l1 l2 l3)) (off + 8) false
              Option.none [] with
          | (els, _, _, Option.none) =>
            pItems fuel (rest.drop (u32 l0 l1 l2 l3)) (off + 8 + u32 l0 l1 l2 l3)
              delimited (acc ++ [els])
          | (_, _, _, some f) => .error f
      else .error ⟨.badItemTag, off⟩
    | _ => .error ⟨.truncatedHeader, off⟩

/-- Parse the fragment items of an encapsulated pixel stream, up to the
end-of-sequence delimiter. -/
def pFrags : Nat → List Nat → Nat → List (List Nat) →
    Except Fault (List (List Nat) × List Nat × Nat)
  | 0, _, off, _ => .error ⟨.fuelExhausted, off⟩
  | fuel + 1, b, off, acc =>
    match b with
    | g0 :: g1 :: e0 :: e1 :: l0 :: l1 :: l2 :: l3 :: rest =>
      if u16 g0 g1 = 65534 ∧ u16 e0 e1 = 57565 then .ok (acc, rest, off + 8)
      else if u16 g0 g1 = 65534 ∧ u16 e0 e1 = 57344 then
        if u32 l0 l1 l2 l3 = undefLen then .error ⟨.badUndefinedLength, off⟩
        else if rest.length < u32 l0 l1 l2 l3 then .error ⟨.truncatedValue, off⟩
        else
          pFrags fuel (rest.drop (u32 l0 l1 l2 l3)) (off + 8 + u32 l0 l1 l2 l3)
            (acc ++ [rest.take (u32 l0 l1 l2 l3)])
      else .error ⟨.badItemTag, off⟩
    | _ => .error ⟨.truncatedHeader, off⟩

/-- Parse an encapsulated pixel sequence: first the Basic Offset Table
item (possibly zero-length, meaning absent), then the fragments. -/
def pPixSeq : Nat → List Nat → Nat →
    Except Fault (List Nat × List (List Nat) × List Nat × Nat)
  | 0, _, off => .error ⟨.fuelExhausted, off⟩
  | fuel + 1, b, off =>
    match b with
    | g0 :: g1 :: e0 :: e1 :: l0 :: l1 :: l2 :: l3 :: rest =>
      if u16 g0 g1 = 65534 ∧ u16 e0 e1 = 57344 then
        if u32 l0 l1 l2 l3 = undefLen then .error ⟨.badOffsetTable, off⟩
        else if rest.length < u32 l0 l1 l2 l3 then .error ⟨.truncatedValue, off⟩
        else
          match chunk32 (rest.take (u32 l0 l1 l2 l3)) with
          | Option.none => .error ⟨.badOffsetTable, off⟩
          | some bot =>
            match pFrags fuel (rest.drop (u32 l0 l1 l2 l3))
                (off + 8 + u32 l0 l1 l2 l3) [] with
            | .error f => .error f
            | .ok (frags, rest2, off2) => .ok (bot, frags, rest2, off2)
      else .error ⟨.badOffsetTable, off⟩
    | _ => .error ⟨.truncatedHeader, off⟩

end

/-! ## Top-level read/write entry points -/

/-- Modelled from the spec: parse options — the error-tolerance flag and
an optional name label for memory-sourced input (used as a diagnostic
path surrogate). -/
structure ReadOptions where
  keep_on_error : Bool := false
  name : String := "memory"

/-- Modelled from the spec: the top-level owner of one root DataSet plus
file-level metadata — source path or synthetic name, a parse-error flag,
and an optional human-readable error message (with the fault's byte
offset) when constructed in error-tolerant mode. -/
structure DicomFile where
  path : String
  dataset : DataSet
  has_error : Bool
  error_message : Option String
  error_offset : Nat
  deriving Repr

/-- The `DICM` signature bytes. -/
def dicmMagic : List Nat := [68, 73, 67, 77]

/-- The 128-byte zero preamble. -/
def filePreamble : List Nat := List.replicate 128 0

/-- Signature detection: a 128-byte preamble followed by `DICM`, or a
bare `DICM` at offset zero.  Returns the remaining content and its start
offset, or `none` when no signature is found (observed behavior: such
input yields an empty data set rather than an error). -/
def sigSplit (b : List Nat) : Option (List Nat × Nat) :=
  if b.take 132 = filePreamble ++ dicmMagic then some (b.drop 132, 132)
  else if b.take 4 = dicmMagic then some (b.drop 4, 4)
  else Option.none

/-- Run the element loop over the post-signature content with fuel equal
to the buffer length plus one (every loop step consumes at least one
byte, so real streams never exhaust fuel). -/
def parseBody (b : List Nat) (off0 : Nat) : DataSet × Option Fault :=
  match pElems (b.length + 1) b off0 false Option.none [] with
  | (els, _, _, f) => (els, f)

/-- The elements the reader had built before the first structural fault
(including a salvaged truncated element); the tolerant mode must preserve
exactly these. -/
def parsedBeforeFault (b : List Nat) : DataSet :=
  match sigSplit b with
  | Option.none => []
  | some (body, start) => (parseBody body start).1

/-- Modelled from the spec: `parse(bytes, options) -> DicomFile`, failing
with a `ParseError` fault unless `keep_on_error` is requested, in which
case it returns a DicomFile with `has_error = true` and a populated
`error_message`, retaining whatever partial tree was built before the
fault. -/
def parse (b : List Nat) (opts : ReadOptions) : Except Fault DicomFile :=
  match sigSplit b with
  | Option.none => .ok ⟨opts.name, [], false, Option.none, 0⟩
  | some (body, start) =>
    match parseBody body start with
    | (els, Option.none) => .ok ⟨opts.name, els, false, Option.none, 0⟩
    | (els, some f) =>
      if opts.keep_on_error then
        .ok ⟨opts.name, els, true, some f.kind.describe, f.off⟩
      else .error f

/-- The binding-level constructor for memory-backed reads. -/
def read_bytes (b : List Nat) (opts : ReadOptions := {}) :
    Except Fault DicomFile :=
  parse b opts

/-- Modelled from the spec: `write_bytes(dataset) -> bytes` re-emits the
preamble/signature and the data set. -/
def write_bytes (ds : DataSet) : List Nat :=
  filePreamble ++ dicmMagic ++ writeEls ds

/-! ## Well-formedness invariants established by the reader

These are exactly the properties the reader guarantees for every element
tree it returns without a fault, and the properties the serializer needs
for the structural round-trip. -/

/-- Strict lower bound on a tag (the ordering constraint carried through
the element loop). -/
def lbLt : Option Nat → Nat → Prop
  | Option.none, _ => True
  | some t, tag => t < tag

/-- Well-formed fragments: bytes below 256 and an encodable defined
length. -/
def WFfrags (frags : List (List Nat)) : Prop :=
  ∀ f ∈ frags, (∀ x ∈ f, x < 256) ∧ f.length < 4294967295

mutual

/-- Well-formed value payload under its VR: the VR is consistent with
the payload kind, value bytes are below 256, and lengths are
representable in the length field chosen by the VR class. -/
def WFval : DValue → VR → Prop
  | .raw d, vr => vr ≠ .none ∧ vr ≠ .PX ∧ vr ≠ .SQ ∧
      (∀ x ∈ d, x < 256) ∧
      (if vr.isLong then d.length < 4294967295 else d.length < 65536)
  | .sq items, vr => vr = .SQ ∧ WFitems items
  | .px bot frags, vr => vr = .PX ∧ (∀ n ∈ bot, n < 4294967296) ∧
      4 * bot.length < 4294967295 ∧ WFfrags frags

/-- Well-formed element: encodable tag outside the delimiter group and a
well-formed value. -/
def WFe : DElem → Prop
  | .mk tag vr _ val =>
    tag < 4294967296 ∧ tag / 65536 ≠ 65534 ∧ WFval val vr

/-- Well-formed item list: every item is a well-formed data set. -/
def WFitems : List (List DElem) → Prop
  | [] => True
  | d :: rest => WFds Option.none d ∧ WFitems rest

/-- Well-formed data set under a tag lower bound: strictly ascending
tags and well-formed elements. -/
def WFds : Option Nat → DataSet → Prop
  | _, [] => True
  | lb, e :: rest => lbLt lb e.tag ∧ WFe e ∧ WFds (some e.tag) rest

end

/-! ## Typed value access

Modelled from the spec: typed scalar readers convert the raw payload
according to VR-specific binary or text-numeric decoding; all converters
return an explicit absent signal (`none`) when the VR mismatches the
requested conversion or the payload is malformed, rather than raising.
Floating-point VRs (FL/FD) are outside the model; decimal-string values
are read into exact rationals. -/

/-- ASCII byte list of a string literal (for text and UID comparisons). -/
def asciiBytes (s : String) : List Nat := s.toList.map Char.toNat

/-- Strip leading and trailing padding (space and NUL) from a text
payload. -/
def trimBytes (l : List Nat) : List Nat :=
  ((l.dropWhile (fun c => c == 32 || c == 0)).reverse.dropWhile
    (fun c => c == 32 || c == 0)).reverse

/-- The first backslash-delimited component of a multi-valued text
payload. -/
def firstComponent (l : List Nat) : List Nat := l.takeWhile (fun c => c != 92)

/-- Digits-only text to a natural number; `none` when empty or
non-numeric. -/
def parseNatText (l : List Nat) : Option Nat :=
  if l ≠ [] ∧ l.all (fun c => 48 ≤ c ∧ c ≤ 57) then
    some (l.foldl (fun a c => a * 10 + (c - 48)) 0)
  else Option.none

/-- Integer-string text (optional sign, digits) to an integer. -/
def parseIntText (l : List Nat) : Option Int :=
  match l with
  | 43 :: rest => (parseNatText rest).map (fun n => (n : Int))
  | 45 :: rest => (parseNatText rest).map (fun n => -(n : Int))
  | _ => (parseNatText l).map (fun n => (n : Int))

/-- Decimal-string text (optional sign, digits, optional fraction) to an
exact rational (exponent notation is not modelled). -/
def parseDecimalText (l : List Nat) : Option ℚ :=
  let signed : List Nat → Option ℚ := fun digits =>
    match digits.splitOn 46 with
    | [intPart] => (parseNatText intPart).map (fun n => (n : ℚ))
    | [intPart, fracPart] =>
      match parseNatText intPart, parseNatText fracPart with
      | some i, some f =>
        some ((i : ℚ) + (f : ℚ) / ((10 : ℚ) ^ fracPart.length))
      | _, _ => Option.none
    | _ => Option.none
  match l with
  | 43 :: rest => signed rest
  | 45 :: rest => (signed rest).map (fun q => -q)
  | _ => signed l

/-- Sign-extend an 8-bit value. -/
def sign8 (v : Nat) : Int := if v < 128 then (v : Int) else (v : Int) - 256

/-- Sign-extend a 16-bit value. -/
def sign16 (v : Nat) : Int := if v < 32768 then (v : Int) else (v : Int) - 65536

/-- `to_long`: scalar integer read of a binary or integer-string
element. -/
def to_long (e : DElem) : Option Int :=
  match e.val with
  | .raw d =>
    match e.vr with
    | .US => match d with
      | [a, b] => some ((u16 a b : Nat) : Int)
      | _ => Option.none
    | .SS => match d with
      | [a, b] => some (sign16 (u16 a b))
      | _ => Option.none
    | .UL => match d with
      | [a, b, c, e'] => some ((u32 a b c e' : Nat) : Int)
      | _ => Option.none
    | .IS => parseIntText (trimBytes (firstComponent d))
    | _ => Option.none
  | _ => Option.none

/-- `to_double`: scalar rational read of a numeric element (decimal
strings exactly; binary integers widened). -/
def to_double (e : DElem) : Option ℚ :=
  match e.val with
  | .raw d =>
    match e.vr with
    | .DS => parseDecimalText (trimBytes (firstComponent d))
    | .IS => (parseIntText (trimBytes (firstComponent d))).map (fun n => (n : ℚ))
    | .US => match d with
      | [a, b] => some ((u16 a b : Nat) : ℚ)
      | _ => Option.none
    | .SS => match d with
      | [a, b] => some ((sign16 (u16 a b) : Int) : ℚ)
      | _ => Option.none
    | _ => Option.none
  | _ => Option.none

/-- Text VRs read as trimmed ASCII byte strings (`to_string_view`). -/
def to_string_view (e : DElem) : Option (List Nat) :=
  match e.val with
  | .raw d =>
    match e.vr with
    | .AE | .AS | .CS | .DA | .DS | .DT | .IS | .LO | .LT | .PN | .SH
    | .ST | .TM | .UC | .UI | .UR | .UT => some (trimBytes d)
    | _ => Option.none
  | _ => Option.none

/-- `to_long` of an element fetched by keyword. -/
def getLongKw (ds : DataSet) (kw : String) : Option Int :=
  to_long (get_dataelement_kw ds kw)

/-! ## Pixel Decode Pipeline -/

/-- Modelled from the spec: the element-derived frame geometry (rows,
columns, samples-per-pixel, bits-allocated, planar configuration) plus
pixel representation and frame count. -/
structure Geom where
  rows : Nat
  cols : Nat
  spp : Nat
  bits : Nat
  pixRep : Nat
  planar : Nat
  nframes : Nat
  deriving DecidableEq, Repr

/-- Read the geometry from the data set; `none` when the mandatory
image elements are absent. -/
def geomOf (ds : DataSet) : Option Geom :=
  match getLongKw ds "Rows", getLongKw ds "Columns",
      getLongKw ds "BitsAllocated" with
  | some r, some c, some bits =>
    some ⟨r.toNat, c.toNat, ((getLongKw ds "SamplesPerPixel").getD 1).toNat,
      bits.toNat, ((getLongKw ds "PixelRepresentation").getD 0).toNat,
      ((getLongKw ds "PlanarConfiguration").getD 0).toNat,
      ((getLongKw ds "NumberOfFrames").getD 1).toNat⟩
  | _, _, _ => Option.none

/-- Element types of decoded arrays. -/
inductive DType where
  | uint8 | int8 | uint16 | int16 | float32
  deriving DecidableEq, Repr

/-- Native element type from bits-allocated and pixel representation
(8- and 16-bit integer samples are modelled). -/
def dtypeOf (g : Geom) : Option DType :=
  if g.bits = 8 then some (if g.pixRep = 1 then .int8 else .uint8)
  else if g.bits = 16 then some (if g.pixRep = 1 then .int16 else .uint16)
  else Option.none

/-- Natural decoded shape of one frame. -/
def shapeOf (g : Geom) : List Nat :=
  if g.spp = 1 then [g.rows, g.cols] else [g.rows, g.cols, g.spp]

/-- Bytes per stored sample. -/
def bytesPerSample (g : Geom) : Nat := g.bits / 8

/-- Encoded byte count of one uncompressed frame. -/
def frameByteCount (g : Geom) : Nat := g.rows * g.cols * g.spp * bytesPerSample g

/-- Group bytes into 16-bit little-endian sample values. -/
def pairs16 : List Nat → List Nat
  | a :: b :: rest => u16 a b :: pairs16 rest
  | _ => []

/-- Interpret raw little-endian sample bytes as numeric values of the
given element type. -/
def interpBytes (dt : DType) (bytes : List Nat) : List ℚ :=
  match dt with
  | .uint8 => bytes.map (fun v => (v : ℚ))
  | .int8 => bytes.map (fun v => ((sign8 v : Int) : ℚ))
  | .uint16 => (pairs16 bytes).map (fun v => (v : ℚ))
  | .int16 => (pairs16 bytes).map (fun v => ((sign16 v : Int) : ℚ))
  | .float32 => []

/-- The active transfer syntax UID (trimmed text of element
`(0002,0010)`). -/
def transfer_syntax_of (ds : DataSet) : List Nat :=
  match (get_dataelement ds 131088).val with
  | .raw d => trimBytes d
  | _ => []

/-- The codec families of the fixed dispatch table. -/
inductive Codec where
  | native | rle | jpeg | jpegls | jpeg2000 | htj2k
  deriving DecidableEq, Repr

/-- Codec name used in decode-error diagnostics. -/
def Codec.cname : Codec → String
  | .native => "native"
  | .rle => "RLE"
  | .jpeg => "JPEG"
  | .jpegls => "JPEG-LS"
  | .jpeg2000 => "JPEG2000"
  | .htj2k => "HTJ2K"

/-- Modelled from the spec: the transfer-syntax UID selects a decode
backend from a fixed table — uncompressed (native/raw), run-length, the
wavelet families, the predictive family, and the discrete-cosine
family. -/
def codecFor (ts : List Nat) : Option Codec :=
  if ts = asciiBytes "1.2.840.10008.1.2" ∨
      ts = asciiBytes "1.2.840.10008.1.2.1" then some .native
  else if ts = asciiBytes "1.2.840.10008.1.2.5" then some .rle
  else if ts = asciiBytes "1.2.840.10008.1.2.4.50" ∨
      ts = asciiBytes "1.2.840.10008.1.2.4.51" ∨
      ts = asciiBytes "1.2.840.10008.1.2.4.57" ∨
      ts = asciiBytes "1.2.840.10008.1.2.4.70" then some .jpeg
  else if ts = asciiBytes "1.2.840.10008.1.2.4.80" ∨
      ts = asciiBytes "1.2.840.10008.1.2.4.81" then some .jpegls
  else if ts = asciiBytes "1.2.840.10008.1.2.4.90" ∨
      ts = asciiBytes "1.2.840.10008.1.2.4.91" then some .jpeg2000
  else if ts = asciiBytes "1.2.840.10008.1.2.4.201" ∨
      ts = asciiBytes "1.2.840.10008.1.2.4.202" ∨
      ts = asciiBytes "1.2.840.10008.1.2.4.203" then some .htj2k
  else Option.none

/-- The error kinds surfaced by the pipeline (the host-language
`ValueError`/`IndexError`/`TypeError` equivalents, and `DecodeError`
tagged with codec name and frame index). -/
inductive PyErr where
  | valueError (msg : String)
  | indexError (msg : String)
  | typeError (msg : String)
  | notImplementedError (msg : String)
  | decodeError (codec : String) (frame : Nat)
  deriving DecidableEq, Repr

/-- Modelled from the spec: frame resolution — `frame = -1` denotes "the
single frame" and fails with `ValueError` if the image has more than one
frame; `frame >= 0` must be `< number_of_frames` or fails with an
out-of-range error; negative values other than the single-frame sentinel
fail with `ValueError`. -/
def resolveFrame (frame : Int) (nframes : Nat) : Except PyErr Nat :=
  if frame = -1 then
    if nframes = 1 then .ok 0
    else .error (.valueError "frame=-1 requires a single-frame image")
  else if frame < 0 then .error (.valueError "frame must be >= 0 or -1")
  else if frame.toNat < nframes then .ok frame.toNat
  else .error (.indexError "frame index out of range")

/-- Modelled from the spec: the modality rescale (slope/intercept) read
from the data set; present only when both elements parse. -/
def rescaleOf (ds : DataSet) : Option (ℚ × ℚ) :=
  match to_double (get_dataelement_kw ds "RescaleSlope"),
      to_double (get_dataelement_kw ds "RescaleIntercept") with
  | some s, some i => some (s, i)
  | _, _ => Option.none

/-- The raw payload of the pixel-data element `(7FE0,0010)` when it is a
plain (non-encapsulated) value. -/
def pixelDataBytes (ds : DataSet) : Option (List Nat) :=
  match (get_dataelement ds 2145386512).val with
  | .raw d => some d
  | _ => Option.none

/-- The native (uncompressed) codec backend: slice the frame's byte
range out of the pixel-data payload and interpret the samples. -/
def decodeFrameNative (ds : DataSet) (g : Geom) (dt : DType) (fi : Nat) :
    Except PyErr (List ℚ) :=
  match pixelDataBytes ds with
  | Option.none => .error (.decodeError "native" fi)
  | some d =>
    if (fi + 1) * frameByteCount g ≤ d.length then
      .ok (interpBytes dt ((d.drop (fi * frameByteCount g)).take (frameByteCount g)))
    else .error (.decodeError "native" fi)

/-- Modelled from the spec: codec dispatch.  The entropy-coding backends
are external collaborators consumed behind the decode port; only the
native (uncompressed) backend is part of this core, so the compressed
families surface a `DecodeError` naming the codec and frame index.
Output values never depend on the thread count (threading partitions
work, it does not change results), so the backend port takes no
`threads` argument at the value level. -/
def decodeFrame (ds : DataSet) (g : Geom) (dt : DType) (fi : Nat) :
    Except PyErr (List ℚ) :=
  match codecFor (transfer_syntax_of ds) with
  | some .native => decodeFrameNative ds g dt fi
  | some c => .error (.decodeError c.cname fi)
  | Option.none => .error (.decodeError "unknown" fi)

/-- A decoded array: shape, element type, writability and contents. -/
structure NDArr where
  shape : List Nat
  dtype : DType
  readonly : Bool
  data : List ℚ
  deriving DecidableEq, Repr

/-- Modelled from the spec: `to_array(frame, scaled) -> Array` allocates
a fresh buffer per call; when `scaled` and the data set carries a
modality rescale the output element type is promoted to floating point
and the rescale applied post-decode, and absent rescale metadata
`scaled=true` is a no-op preserving the native integer type. -/
def to_array (ds : DataSet) (frame : Int := 0) (scaled : Bool := false) :
    Except PyErr NDArr :=
  match geomOf ds with
  | Option.none => .error (.valueError "missing image geometry")
  | some g =>
    match resolveFrame frame g.nframes with
    | .error e => .error e
    | .ok fi =>
      match dtypeOf g with
      | Option.none => .error (.valueError "unsupported bits allocated")
      | some dt =>
        match decodeFrame ds g dt fi with
        | .error e => .error e
        | .ok data =>
          match (if scaled then rescaleOf ds else Option.none) with
          | some (s, i) =>
            .ok ⟨shapeOf g, .float32, false, data.map (fun v => s * v + i)⟩
          | Option.none => .ok ⟨shapeOf g, dt, false, data⟩

/-- Modelled from the spec: `to_array_view(frame)` returns a read-only,
zero-copy view directly over the already-contiguous uncompressed source
bytes when the transfer syntax requires no decoding, and must fail (not
silently decode) when the data is compressed.  The view is written
directly against the source bytes, independently of the codec-dispatch
path. -/
def to_array_view (ds : DataSet) (frame : Int := 0) : Except PyErr NDArr :=
  match geomOf ds with
  | Option.none => .error (.valueError "missing image geometry")
  | some g =>
    match resolveFrame frame g.nframes with
    | .error e => .error e
    | .ok fi =>
      match dtypeOf g with
      | Option.none => .error (.valueError "unsupported bits allocated")
      | some dt =>
        if codecFor (transfer_syntax_of ds) = some .native then
          match pixelDataBytes ds with
          | Option.none => .error (.decodeError "native" fi)
          | some d =>
            if (fi + 1) * frameByteCount g ≤ d.length then
              .ok ⟨shapeOf g, dt, true,
                interpBytes dt ((d.drop (fi * frameByteCount g)).take
                  (frameByteCount g))⟩
            else .error (.decodeError "native" fi)
        else .error (.valueError "to_array_view requires an uncompressed transfer syntax")

/-- The element type `decode_into` expects of the caller's buffer: the
native type, promoted to floating point when scaling will actually be
applied. -/
def expectedDtype (ds : DataSet) (dt : DType) (scaled : Bool) : DType :=
  match (if scaled then rescaleOf ds else Option.none) with
  | some _ => .float32
  | Option.none => dt

/-- A caller-supplied output buffer for `decode_into`: an identity token
(object identity of the host-language array), its layout, the buffer
flags, and its contents. -/
structure Buffer where
  id : Nat
  shape : List Nat
  dtype : DType
  writable : Bool
  c_contiguous : Bool
  data : List ℚ
  deriving DecidableEq, Repr

/-- Modelled from the spec: `decode_into(buffer, frame, scaled, threads)`
requires a writable, C-contiguous buffer whose shape/dtype exactly match
the frame's decoded layout; a mismatch fails with `ValueError` before any
decode work runs, a non-writable or non-contiguous buffer fails with
`TypeError`, `threads = -1` means all logical CPUs, zero or positive
thread counts are explicit, and other negative counts fail with
`ValueError`.  On success the caller's buffer itself is filled and
returned. -/
def decode_into (ds : DataSet) (out : Buffer) (frame : Int := 0)
    (scaled : Bool := false) (threads : Int := -1) : Except PyErr Buffer :=
  match geomOf ds with
  | Option.none => .error (.valueError "missing image geometry")
  | some g =>
    match resolveFrame frame g.nframes with
    | .error e => .error e
    | .ok fi =>
      match dtypeOf g with
      | Option.none => .error (.valueError "unsupported bits allocated")
      | some dt =>
        if threads < -1 then .error (.valueError "threads must be >= -1")
        else if ¬(out.writable ∧ out.c_contiguous) then
          .error (.typeError "decode_into requires a writable C-contiguous buffer")
        else
          match (if scaled then rescaleOf ds else Option.none) with
          | some (s, i) =>
            if out.shape = shapeOf g ∧ out.dtype = DType.float32 then
              match decodeFrame ds g dt fi with
              | .error e => .error e
              | .ok data => .ok { out with data := data.map (fun v => s * v + i) }
            else .error (.valueError "output buffer shape/dtype mismatch")
          | Option.none =>
            if out.shape = shapeOf g ∧ out.dtype = dt then
              match decodeFrame ds g dt fi with
              | .error e => .error e
              | .ok data => .ok { out with data := data }
            else .error (.valueError "output buffer shape/dtype mismatch")

/-! ## Image conversion (embedded from `src/bindings/python/dicomsdl/_image.py`)

The display-conversion helper is the one part of the engine present as
source; its control flow is embedded here.  Pixel arithmetic specified
over IEEE floats in the source is modelled over exact rationals (no
NaN/Inf arise), which is faithful for the integer-valued samples the
claims range over. -/

/-- `_get_tag_upper_text`: trimmed, upper-cased text of a keyword lookup,
`None` when absent or empty. -/
def get_tag_upper_text (ds : DataSet) (kw : String) : Option (List Nat) :=
  match to_string_view (get_dataelement_kw ds kw) with
  | Option.none => Option.none
  | some t =>
    if t.isEmpty then Option.none
    else some (t.map (fun c => if 97 ≤ c ∧ c ≤ 122 then c - 32 else c))

/-- `_resolve_window`: an explicit (center, width) pair is validated
(width must be positive); otherwise, under `auto_window`, the window is
read from WindowCenter/WindowWidth and silently dropped when absent or
non-positive. -/
def resolve_window (ds : DataSet) (window : Option (ℚ × ℚ))
    (auto_window : Bool) : Except PyErr (Option (ℚ × ℚ)) :=
  match window with
  | some (c, w) =>
    if w ≤ 0 then .error (.valueError "window width must be > 0")
    else .ok (some (c, w))
  | Option.none =>
    if ¬auto_window then .ok Option.none
    else
      match to_double (get_dataelement_kw ds "WindowCenter"),
          to_double (get_dataelement_kw ds "WindowWidth") with
      | some c, some w => if w ≤ 0 then .ok Option.none else .ok (some (c, w))
      | _, _ => .ok Option.none

/-- Clamp a value into the 8-bit display range. -/
def clip255 (x : ℚ) : ℚ := max 0 (min 255 x)

/-- Minimum of a value list (0 for the empty list). -/
def listMin : List ℚ → ℚ
  | [] => 0
  | x :: rest => rest.foldl min x

/-- Maximum of a value list (0 for the empty list). -/
def listMax : List ℚ → ℚ
  | [] => 0
  | x :: rest => rest.foldl max x

/-- `_normalize_mono_to_uint8`: uint8 input without a window passes
through; a window maps `[low, high]` onto `[0, 255]`; otherwise the
array's own min/max range is mapped onto `[0, 255]`. -/
def normalize_mono_to_uint8 (dt : DType) (arr : List ℚ)
    (window : Option (ℚ × ℚ)) : List ℚ :=
  match window with
  | some (c, w) =>
    let low := c - 1/2 - (w - 1)/2
    let high := c - 1/2 + (w - 1)/2
    if high ≤ low then arr.map (fun _ => 0)
    else arr.map (fun v => clip255 ((v - low) * (255 / (high - low))))
  | Option.none =>
    if dt = .uint8 then arr
    else
      let mn := listMin arr
      let mx := listMax arr
      if mx ≤ mn then arr.map (fun _ => 0)
      else arr.map (fun v => clip255 ((v - mn) * (255 / (mx - mn))))

/-- `_normalize_color_to_uint8`, condensed: uint8 passes through, other
element types are range-mapped onto `[0, 255]` (the source normalizes
per channel; the claims never reach the color path, so the global range
map stands in for the per-channel one). -/
def normalize_color_to_uint8 (dt : DType) (arr : List ℚ) : List ℚ :=
  if dt = .uint8 then arr
  else
    let mn := listMin arr
    let mx := listMax arr
    if mx ≤ mn then arr.map (fun _ => 0)
    else arr.map (fun v => clip255 ((v - mn) * (255 / (mx - mn))))

/-- `_should_convert_ybr_to_rgb` from the source. -/
def should_convert_ybr_to_rgb (photometric : Option (List Nat)) : Bool :=
  match photometric with
  | Option.none => false
  | some p =>
    if p = asciiBytes "YBR_RCT" ∨ p = asciiBytes "YBR_ICT" then false
    else p = asciiBytes "YBR_FULL" ∨ p = asciiBytes "YBR_FULL_422" ∨
      p = asciiBytes "YBR_PARTIAL_420" ∨ p = asciiBytes "YBR_PARTIAL_422"

/-- A host-language image: mode string, size, and 8-bit pixel values. -/
structure PILImage where
  mode : String
  width : Nat
  height : Nat
  data : List ℚ
  deriving DecidableEq, Repr

/-- `_dataset_to_image` from the source: `frame < 0` fails with
`ValueError` ("frame must be >= 0") before any decode; then the frame is
decoded with `scaled=True` and converted to an 8-bit image — monochrome
for 2-D arrays (with window resolution and MONOCHROME1 inversion), color
for 3-D arrays with 3 or 4 channels (PALETTE COLOR unsupported), and
`ValueError` otherwise. -/
def dataset_to_image (ds : DataSet) (frame : Int := 0)
    (window : Option (ℚ × ℚ) := Option.none) (auto_window : Bool := true) :
    Except PyErr PILImage :=
  if frame < 0 then .error (.valueError "frame must be >= 0")
  else
    match to_array ds frame true with
    | .error e => .error e
    | .ok arr =>
      if arr.shape.length = 2 then
        match resolve_window ds window auto_window with
        | .error e => .error e
        | .ok dw =>
          let mono := normalize_mono_to_uint8 arr.dtype arr.data dw
          let photometric := get_tag_upper_text ds "PhotometricInterpretation"
          let mono' := if photometric = some (asciiBytes "MONOCHROME1") then
              mono.map (fun v => 255 - v) else mono
          .ok ⟨"L", arr.shape.getD 1 0, arr.shape.getD 0 0, mono'⟩
      else if arr.shape.length = 3 then
        let channels := arr.shape.getD 2 0
        if channels ≠ 3 ∧ channels ≠ 4 then
          .error (.valueError "unsupported color shape for to_image")
        else
          let photometric := get_tag_upper_text ds "PhotometricInterpretation"
          if photometric = some (asciiBytes "PALETTE COLOR") then
            .error (.notImplementedError "to_image does not yet support PALETTE COLOR.")
          else
            let color := normalize_color_to_uint8 arr.dtype arr.data
            if should_convert_ybr_to_rgb photometric then
              if channels ≠ 3 then
                .error (.valueError "YBR photometric interpretation requires 3 samples per pixel")
              else .ok ⟨"RGB", arr.shape.getD 1 0, arr.shape.getD 0 0, color⟩
            else
              .ok ⟨if channels = 3 then "RGB" else "RGBA",
                arr.shape.getD 1 0, arr.shape.getD 0 0, color⟩
      else .error (.valueError "unsupported pixel array ndim for to_image")

/-- Modelled from the spec: the binding-level `DicomFile.to_pil_image`
re-exports the data set's image conversion by direct call-through
(a thin, non-semantic wrapper). -/
def DicomFile.to_pil_image (df : DicomFile) (frame : Int := 0)
    (window : Option (ℚ × ℚ) := Option.none) (auto_window : Bool := true) :
    Except PyErr PILImage :=
  dataset_to_image df.dataset frame window auto_window

/-- The tag lower bound after a data set's elements have been consumed
by the element loop (the last element's tag, or the initial bound). -/
def lastTagOf (lb : Option Nat) : DataSet → Option Nat
  | [] => lb
  | e :: rest => lastTagOf (some e.tag) rest

/-! ## Concrete sample artifacts (mirroring the repository's test vectors) -/

/-- Explicit-VR element with a 2-byte length field. -/
def packShortVR (group elem : Nat) (vrB value : List Nat) : List Nat :=
  w16 group ++ w16 elem ++ vrB ++ w16 value.length ++ value

/-- Explicit-VR element with reserved bytes and a 4-byte length field. -/
def packLongVR (group elem : Nat) (vrB value : List Nat) : List Nat :=
  w16 group ++ w16 elem ++ vrB ++ [0, 0] ++ w32 value.length ++ value

/-- An item `(FFFE,elem)` with a defined length. -/
def packItem (elem : Nat) (value : List Nat) : List Nat :=
  w16 65534 ++ w16 elem ++ w32 value.length ++ value

/-- An item `(FFFE,elem)` with undefined length. -/
def packItemUndef (elem : Nat) : List Nat :=
  w16 65534 ++ w16 elem ++ w32 undefLen

/-- The malformed stream of `test_keep_on_error_records_parse_failure`:
preamble, `DICM`, then a `PN` element declaring 8 value bytes with only
two remaining. -/
def malformedSample : List Nat :=
  filePreamble ++ dicmMagic ++
    (w16 16 ++ w16 16 ++ [80, 78] ++ w16 8 ++ [65, 66])

/-- The well-formed stream of `_build_sequence_pixel_sample`: file-meta
group, two UI elements, an undefined-length sequence with one
undefined-length item, and an encapsulated pixel element with an empty
Basic Offset Table and one four-byte fragment. -/
def seqPixelSample : List Nat :=
  filePreamble ++ dicmMagic ++
    packShortVR 2 0 [85, 76] (w32 40) ++
    packLongVR 2 1 [79, 66] [0, 1] ++
    packShortVR 2 16 [85, 73] (asciiBytes "1.2.840.10008.1.2.1" ++ [0]) ++
    packShortVR 8 22 [85, 73] (asciiBytes "1.2.840.10008.5.1.4.1.1.7" ++ [0]) ++
    packShortVR 8 24 [85, 73] (asciiBytes "1.2.3.4.5.6.7.8.9" ++ [0]) ++
    (w16 8 ++ w16 4368 ++ [83, 81] ++ [0, 0] ++ w32 undefLen ++
      packItemUndef 57344 ++
      packShortVR 8 4437 [85, 73] (asciiBytes "1.2.3.4.5.6" ++ [0]) ++
      packItem 57357 [] ++
      packItem 57565 []) ++
    (w16 32736 ++ w16 16 ++ [79, 66] ++ [0, 0] ++ w32 undefLen ++
      packItem 57344 [] ++
      packItem 57344 [1, 2, 3, 4] ++
      packItem 57565 [])

/-- An in-memory data set mirroring the repository's `test_le.dcm`
fixture: explicit little-endian transfer syntax, one 4×4 signed 16-bit
frame of all-ones, and identity modality rescale elements. -/
def sampleDataSet : DataSet :=
  [ .mk 131088 .UI 0 (.raw (asciiBytes "1.2.840.10008.1.2.1" ++ [0])),
    .mk 2621442 .US 0 (.raw [1, 0]),
    .mk 2621448 .IS 0 (.raw [49, 32]),
    .mk 2621456 .US 0 (.raw [4, 0]),
    .mk 2621457 .US 0 (.raw [4, 0]),
    .mk 2621696 .US 0 (.raw [16, 0]),
    .mk 2621699 .US 0 (.raw [1, 0]),
    .mk 2625618 .DS 0 (.raw [48]),
    .mk 2625619 .DS 0 (.raw [49]),
    .mk 2145386512 .OW 0 (.raw (List.flatten (List.replicate 16 [1, 0]))) ]

/-- The same data set with both modality-rescale elements removed, as in
`test_to_array_scaled_ignored_without_modality_transform`. -/
def sampleNoRescale : DataSet :=
  remove_dataelement (remove_dataelement sampleDataSet 2625619) 2625618

/-- A matching caller buffer for `decode_into` on the sample: 4×4 int16,
writable and C-contiguous. -/
def sampleBuf : Buffer :=
  ⟨7, [4, 4], .int16, true, true, List.replicate 16 0⟩

/-- The DicomFile the reader produces from `seqPixelSample`: the file-meta
group, the three UI elements, the nested sequence, and the encapsulated
pixel element with an empty offset table and one fragment. -/
def seqPixelParsed : DicomFile :=
  ⟨"memory",
    [ .mk 131072 .UL 132 (.raw [40, 0, 0, 0]),
      .mk 131073 .OB 144 (.raw [0, 1]),
      .mk 131088 .UI 158 (.raw (asciiBytes "1.2.840.10008.1.2.1" ++ [0])),
      .mk 524310 .UI 186 (.raw (asciiBytes "1.2.840.10008.5.1.4.1.1.7" ++ [0])),
      .mk 524312 .UI 220 (.raw (asciiBytes "1.2.3.4.5.6.7.8.9" ++ [0])),
      .mk 528656 .SQ 246 (.sq [[.mk 528725 .UI 266 (.raw (asciiBytes "1.2.3.4.5.6" ++ [0]))]]),
      .mk 2145386512 .PX 302 (.px [] [[1, 2, 3, 4]]) ],
    false, Option.none, 0⟩

/-! ## Helper lemmas on the byte primitives -/

theorem u16_w16 {n : Nat} (h : n < 65536) :
    u16 (n % 256) (n / 256 % 256) = n := by
  simp only [u16]
  omega

theorem u32_w32 {n : Nat} (h : n < 4294967296) :
    u32 (n % 256) (n / 256 % 256) (n / 65536 % 256) (n / 16777216 % 256) = n := by
  simp only [u32]
  omega

theorem u16_lt {a b : Nat} (ha : a < 256) (hb : b < 256) : u16 a b < 65536 := by
  simp only [u16]; omega

theorem u32_lt {a b c d : Nat} (ha : a < 256) (hb : b < 256) (hc : c < 256)
    (hd : d < 256) : u32 a b c d < 4294967296 := by
  simp only [u32]; omega

theorem chunk32_w32s (l : List Nat) (h : ∀ n ∈ l, n < 4294967296) :
    chunk32 (w32s l) = some l := by
  induction l with
  | nil => rfl
  | cons n rest ih =>
    have hn : n < 4294967296 := h n (List.mem_cons_self _ _)
    have hrest := ih (fun m hm => h m (List.mem_cons_of_mem _ hm))
    simp [w32s, w32, chunk32, hrest, u32_w32 hn]

theorem vrOfCode_codeOfVR (vr : VR) (h1 : vr ≠ .none) (h2 : vr ≠ .PX) :
    vrOfCode (codeOfVR vr).1 (codeOfVR vr).2 = some vr := by
  cases vr <;> first | (exact absurd rfl h1) | (exact absurd rfl h2) | rfl

theorem vrOfCode_valid {c0 c1 : Nat} {vr : VR} (h : vrOfCode c0 c1 = some vr) :
    vr ≠ .none ∧ vr ≠ .PX := by
  unfold vrOfCode at h
  rw [Option.map_eq_some'] at h
  obtain ⟨t, ht, hv⟩ := h
  have hmem : t ∈ vrCodeTable := List.mem_of_find?_eq_some ht
  have hall : ∀ u ∈ vrCodeTable, u.2.2 ≠ VR.none ∧ u.2.2 ≠ VR.PX := by decide
  rw [← hv]
  exact hall t hmem

theorem not_long_ne_SQ {vr : VR} (h : vr.isLong = false) : vr ≠ .SQ := by
  intro hq; subst hq; simp [VR.isLong] at h

theorem w32s_length (l : List Nat) : (w32s l).length = 4 * l.length := by
  induction l with
  | nil => rfl
  | cons n rest ih => simp [w32s, w32, ih]; omega

theorem chunk32_props : ∀ l vs : List Nat, chunk32 l = some vs →
    l.length = 4 * vs.length ∧
    ((∀ x ∈ l, x < 256) → ∀ v ∈ vs, v < 4294967296)
  | [], vs, h => by
    simp only [chunk32] at h
    injection h with h'
    subst h'
    simp
  | [a], vs, h => by simp [chunk32] at h
  | [a, b], vs, h => by simp [chunk32] at h
  | [a, b, c], vs, h => by simp [chunk32] at h
  | b0 :: b1 :: b2 :: b3 :: rest, vs, h => by
    simp only [chunk32] at h
    cases hrec : chunk32 rest with
    | none => rw [hrec] at h; exact Option.noConfusion h
    | some vs' =>
      rw [hrec] at h
      injection h with h'
      subst h'
      have ih := chunk32_props rest vs' hrec
      constructor
      · simp only [List.length_cons, ih.1]
        omega
      · intro hb v hv
        rcases List.mem_cons.mp hv with h1 | h2
        · subst h1
          exact u32_lt (hb b0 (by simp)) (hb b1 (by simp)) (hb b2 (by simp))
            (hb b3 (by simp))
        · exact ih.2 (fun x hx => hb x (by simp [hx])) v h2

theorem bytes_take {l : List Nat} {n : Nat} (h : ∀ x ∈ l, x < 256) :
    ∀ x ∈ l.take n, x < 256 :=
  fun x hx => h x (List.take_subset n l hx)

theorem bytes_drop {l : List Nat} {n : Nat} (h : ∀ x ∈ l, x < 256) :
    ∀ x ∈ l.drop n, x < 256 :=
  fun x hx => h x (List.drop_subset n l hx)

theorem stripE_tag (e : DElem) : (stripE e).tag = e.tag := by
  cases e with
  | mk t v o x => rfl

theorem tagOrderOk_of_lbLt {lb : Option Nat} {t : Nat} (h : lbLt lb t) :
    tagOrderOk lb t = true := by
  cases lb with
  | none => rfl
  | some x => simpa [tagOrderOk] using h

theorem lbLt_of_tagOrderOk {lb : Option Nat} {t : Nat}
    (h : tagOrderOk lb t = true) : lbLt lb t := by
  cases lb with
  | none => trivial
  | some x => simpa [tagOrderOk, lbLt] using h


theorem u16_tag_hi {tag : Nat} (h : tag < 4294967296) :
    u16 (tag / 65536 % 256) (tag / 65536 / 256 % 256) = tag / 65536 :=
  u16_w16 (by omega)

theorem u16_tag_lo (tag : Nat) :
    u16 (tag % 65536 % 256) (tag % 65536 / 256 % 256) = tag % 65536 :=
  u16_w16 (by omega)

theorem pElems_nil_step (fuel off : Nat) (lastTag : Option Nat)
    (acc : List DElem) :
    pElems (fuel + 1) [] off false lastTag acc = (acc, [], off, Option.none) :=
  rfl

theorem pElems_delim_step (fuel off : Nat) (lastTag : Option Nat)
    (acc : List DElem) (rest : List Nat) :
    pElems (fuel + 1) (delimBytes 57357 ++ rest) off true lastTag acc =
      (acc, rest, off + 8, Option.none) := by
  simp [delimBytes, w16, w32, pElems, u16]

/-! ## Reader invariant: a fault-free parse yields a well-formed tree -/

theorem parserWF : ∀ fuel : Nat,
    (∀ b off inItem lastTag acc els rest offE,
      (∀ x ∈ b, x < 256) →
      pElems fuel b off inItem lastTag acc = (els, rest, offE, Option.none) →
      ∃ new, els = acc ++ new ∧ WFds lastTag new ∧ ∀ x ∈ rest, x < 256) ∧
    (∀ g0 g1 e0 e1 bs off el rest offE,
      (∀ x ∈ g0 :: g1 :: e0 :: e1 :: bs, x < 256) →
      pElem fuel (g0 :: g1 :: e0 :: e1 :: bs) off = .ok (el, rest, offE) →
      el.tag = u16 g0 g1 * 65536 + u16 e0 e1 ∧ el.tag < 4294967296 ∧
      WFval el.val el.vr ∧ ∀ x ∈ rest, x < 256) ∧
    (∀ b off delimited acc items rest offE,
      (∀ x ∈ b, x < 256) →
      pItems fuel b off delimited acc = .ok (items, rest, offE) →
      ∃ new, items = acc ++ new ∧ WFitems new ∧ ∀ x ∈ rest, x < 256) ∧
    (∀ b off acc frags rest offE,
      (∀ x ∈ b, x < 256) →
      pFrags fuel b off acc = .ok (frags, rest, offE) →
      ∃ new, frags = acc ++ new ∧ WFfrags new ∧ ∀ x ∈ rest, x < 256) ∧
    (∀ b off bot frags rest offE,
      (∀ x ∈ b, x < 256) →
      pPixSeq fuel b off = .ok (bot, frags, rest, offE) →
      (∀ n ∈ bot, n < 4294967296) ∧ 4 * bot.length < 4294967295 ∧
      WFfrags frags ∧ ∀ x ∈ rest, x < 256) := by
  intro fuel
  induction fuel with
  | zero =>
    refine ⟨?_, ?_, ?_, ?_, ?_⟩ <;> (intros; simp [pElems, pElem, pItems, pFrags, pPixSeq] at *)
  | succ fuel ih =>
    obtain ⟨ihEls, ihElem, ihItems, ihFrags, ihPix⟩ := ih
    refine ⟨?_, ?_, ?_, ?_, ?_⟩
    · -- pElems
      intro b off inItem lastTag acc els rest offE hb h
      rcases b with _ | ⟨g0, _ | ⟨g1, _ | ⟨e0, _ | ⟨e1, bs⟩⟩⟩⟩
      · cases inItem with
        | true => simp [pElems] at h
        | false =>
          have h1 : acc = els := congrArg (fun p => p.1) h
          have h2 : ([] : List Nat) = rest := congrArg (fun p => p.2.1) h
          exact ⟨[], by rw [← h1]; simp, trivial, by rw [← h2]; simp⟩
      · simp [pElems] at h
      · simp [pElems] at h
      · simp [pElems] at h
      · simp only [pElems] at h
        by_cases hfe : u16 g0 g1 = 65534
        · rw [if_pos hfe] at h
          by_cases hdel : inItem = true ∧ u16 e0 e1 = 57357
          · rw [if_pos hdel] at h
            rcases bs with _ | ⟨x0, _ | ⟨x1, _ | ⟨x2, _ | ⟨x3, bs2⟩⟩⟩⟩
            · simp at h
            · simp at h
            · simp at h
            · simp at h
            · have h1 : acc = els := congrArg (fun p => p.1) h
              have h2' : bs2 = rest := congrArg (fun p => p.2.1) h
              refine ⟨[], by rw [← h1]; simp, trivial, ?_⟩
              rw [← h2']
              intro x hx
              exact hb x (by simp [hx])
          · rw [if_neg hdel] at h
            simp at h
        · rw [if_neg hfe] at h
          by_cases hto : tagOrderOk lastTag (u16 g0 g1 * 65536 + u16 e0 e1) = true
          · rw [if_pos hto] at h
            cases hpe : pElem fuel (g0 :: g1 :: e0 :: e1 :: bs) off with
            | error ef => rw [hpe] at h; simp at h
            | ok t =>
              obtain ⟨el, rest2, off2⟩ := t
              rw [hpe] at h
              simp only [] at h
              have hel := ihElem g0 g1 e0 e1 bs off el rest2 off2 hb hpe
              obtain ⟨htag, hbound, hval, hb2⟩ := hel
              have hrec := ihEls rest2 off2 inItem
                (some (u16 g0 g1 * 65536 + u16 e0 e1)) (acc ++ [el]) els rest offE hb2 h
              obtain ⟨new, hnew, hwf, hbr⟩ := hrec
              refine ⟨el :: new, ?_, ?_, hbr⟩
              · rw [hnew, List.append_assoc]
                rfl
              · refine ⟨?_, ?_, ?_⟩
                · rw [htag]
                  exact lbLt_of_tagOrderOk hto
                · cases el with
                  | mk t v o x =>
                    simp only [DElem.tag] at htag hbound
                    simp only [DElem.val, DElem.vr] at hval
                    refine ⟨hbound, ?_, hval⟩
                    have he1 : u16 e0 e1 < 65536 :=
                      u16_lt (hb e0 (by simp)) (hb e1 (by simp))
                    rw [htag]
                    intro hcontra
                    apply hfe
                    omega
                · rw [htag]
                  exact hwf
          · rw [if_neg hto] at h
            simp at h
    · -- pElem
      intro g0 g1 e0 e1 bs off el rest offE hb h
      have hg0 := hb g0 (by simp)
      have hg1 := hb g1 (by simp)
      have he0 := hb e0 (by simp)
      have he1 := hb e1 (by simp)
      have htagbound : u16 g0 g1 * 65536 + u16 e0 e1 < 4294967296 := by
        have := u16_lt hg0 hg1
        have := u16_lt he0 he1
        omega
      rcases bs with _ | ⟨v0, _ | ⟨v1, rest0⟩⟩
      · simp [pElem] at h
      · simp [pElem] at h
      · simp only [pElem] at h
        cases hvr : vrOfCode v0 v1 with
        | none => rw [hvr] at h; simp at h
        | some vr =>
          rw [hvr] at h
          obtain ⟨hvn, hvp⟩ := vrOfCode_valid hvr
          cases hlong : vr.isLong with
          | true =>
            simp only [hlong, eq_self_iff_true, if_true] at h
            rcases rest0 with _ | ⟨r0, _ | ⟨r1, _ | ⟨l0, _ | ⟨l1, _ | ⟨l2, _ | ⟨l3, rest2⟩⟩⟩⟩⟩⟩
            · simp at h
            · simp at h
            · simp at h
            · simp at h
            · simp at h
            · simp at h
            · dsimp only at h
              have hl0 := hb l0 (by simp)
              have hl1 := hb l1 (by simp)
              have hl2 := hb l2 (by simp)
              have hl3 := hb l3 (by simp)
              have hlenbound := u32_lt hl0 hl1 hl2 hl3
              by_cases hundef : u32 l0 l1 l2 l3 = undefLen
              · rw [if_pos hundef] at h
                by_cases hsq : vr = VR.SQ
                · rw [if_pos hsq] at h
                  cases hpi : pItems fuel rest2 (off + 12) true [] with
                  | error f => rw [hpi] at h; simp at h
                  | ok t =>
                    obtain ⟨items, rest3, off3⟩ := t
                    rw [hpi] at h
                    obtain ⟨new, hnew, hwfi, hb3⟩ := ihItems rest2 (off + 12) true []
                      items rest3 off3 (fun x hx => hb x (by simp [hx])) hpi
                    injection h with h'
                    have hel : DElem.mk (u16 g0 g1 * 65536 + u16 e0 e1) VR.SQ off
                        (DValue.sq items) = el := congrArg (fun p => p.1) h'
                    have hrst : rest3 = rest := congrArg (fun p => p.2.1) h'
                    subst hel
                    refine ⟨rfl, htagbound, ?_, by rw [← hrst]; exact hb3⟩
                    simp only [DElem.val, DElem.vr, WFval]
                    have hin : items = new := by simpa using hnew
                    exact ⟨trivial, hin ▸ hwfi⟩
                · rw [if_neg hsq] at h
                  by_cases hob : vr = VR.OB ∨ vr = VR.OW ∨ vr = VR.UN
                  · rw [if_pos hob] at h
                    cases hpx : pPixSeq fuel rest2 (off + 12) with
                    | error f => rw [hpx] at h; simp at h
                    | ok t =>
                      obtain ⟨bot, frags, rest3, off3⟩ := t
                      rw [hpx] at h
                      obtain ⟨hbot, hbotlen, hwff, hb3⟩ := ihPix rest2 (off + 12)
                        bot frags rest3 off3 (fun x hx => hb x (by simp [hx])) hpx
                      injection h with h'
                      have hel : DElem.mk (u16 g0 g1 * 65536 + u16 e0 e1) VR.PX off
                          (DValue.px bot frags) = el := congrArg (fun p => p.1) h'
                      have hrst : rest3 = rest := congrArg (fun p => p.2.1) h'
                      subst hel
                      refine ⟨rfl, htagbound, ?_, by rw [← hrst]; exact hb3⟩
                      simp only [DElem.val, DElem.vr, WFval]
                      exact ⟨trivial, hbot, hbotlen, hwff⟩
                  · rw [if_neg hob] at h
                    simp at h
              · rw [if_neg hundef] at h
                by_cases hsq : vr = VR.SQ
                · rw [if_pos hsq] at h
                  by_cases hlen : rest2.length < u32 l0 l1 l2 l3
                  · rw [if_pos hlen] at h
                    simp at h
                  · rw [if_neg hlen] at h
                    cases hpi : pItems fuel (rest2.take (u32 l0 l1 l2 l3))
                        (off + 12) false [] with
                    | error f => rw [hpi] at h; simp at h
                    | ok t =>
                      obtain ⟨items, rest3, off3⟩ := t
                      rw [hpi] at h
                      obtain ⟨new, hnew, hwfi, hb3⟩ := ihItems
                        (rest2.take (u32 l0 l1 l2 l3)) (off + 12) false [] items
                        rest3 off3 (bytes_take (fun x hx => hb x (by simp [hx]))) hpi
                      injection h with h'
                      have hel : DElem.mk (u16 g0 g1 * 65536 + u16 e0 e1) VR.SQ off
                          (DValue.sq items) = el := congrArg (fun p => p.1) h'
                      have hrst : rest2.drop (u32 l0 l1 l2 l3) = rest :=
                        congrArg (fun p => p.2.1) h'
                      subst hel
                      refine ⟨rfl, htagbound, ?_, ?_⟩
                      · simp only [DElem.val, DElem.vr, WFval]
                        have hin : items = new := by simpa using hnew
                        exact ⟨trivial, hin ▸ hwfi⟩
                      · rw [← hrst]
                        exact bytes_drop (fun x hx => hb x (by simp [hx]))
                · rw [if_neg hsq] at h
                  by_cases hlen : rest2.length < u32 l0 l1 l2 l3
                  · rw [if_pos hlen] at h
                    simp at h
                  · rw [if_neg hlen] at h
                    injection h with h'
                    have hel : DElem.mk (u16 g0 g1 * 65536 + u16 e0 e1) vr off
                        (DValue.raw (rest2.take (u32 l0 l1 l2 l3))) = el :=
                      congrArg (fun p => p.1) h'
                    have hrst : rest2.drop (u32 l0 l1 l2 l3) = rest :=
                      congrArg (fun p => p.2.1) h'
                    subst hel
                    refine ⟨rfl, htagbound, ?_, ?_⟩
                    · simp only [DElem.val, DElem.vr, WFval]
                      refine ⟨hvn, hvp, hsq, bytes_take (fun x hx => hb x (by simp [hx])), ?_⟩
                      simp only [hlong, eq_self_iff_true, if_true]
                      have hu : u32 l0 l1 l2 l3 ≠ 4294967295 := by
                        simpa [undefLen] using hundef
                      rw [List.length_take]
                      omega
                    · rw [← hrst]
                      exact bytes_drop (fun x hx => hb x (by simp [hx]))
          | false =>
            simp only [hlong, Bool.false_eq_true, if_false] at h
            rcases rest0 with _ | ⟨l0, _ | ⟨l1, rest2⟩⟩
            · simp at h
            · simp at h
            · dsimp only at h
              have hl0 := hb l0 (by simp)
              have hl1 := hb l1 (by simp)
              have hlenbound := u16_lt hl0 hl1
              by_cases hlen : rest2.length < u16 l0 l1
              · rw [if_pos hlen] at h
                simp at h
              · rw [if_neg hlen] at h
                injection h with h'
                have hel : DElem.mk (u16 g0 g1 * 65536 + u16 e0 e1) vr off
                    (DValue.raw (rest2.take (u16 l0 l1))) = el :=
                  congrArg (fun p => p.1) h'
                have hrst : rest2.drop (u16 l0 l1) = rest :=
                  congrArg (fun p => p.2.1) h'
                subst hel
                refine ⟨rfl, htagbound, ?_, ?_⟩
                · simp only [DElem.val, DElem.vr, WFval]
                  refine ⟨hvn, hvp, not_long_ne_SQ hlong,
                    bytes_take (fun x hx => hb x (by simp [hx])), ?_⟩
                  simp only [hlong, Bool.false_eq_true, if_false]
                  rw [List.length_take]
                  omega
                · rw [← hrst]
                  exact bytes_drop (fun x hx => hb x (by simp [hx]))
    · -- pItems
      intro b off delimited acc items rest offE hb h
      rcases b with _ | ⟨g0, _ | ⟨g1, _ | ⟨e0, _ | ⟨e1, _ | ⟨l0, _ | ⟨l1, _ | ⟨l2, _ | ⟨l3, rest0⟩⟩⟩⟩⟩⟩⟩⟩
      · cases delimited with
        | true => simp [pItems] at h
        | false =>
          injection h with h'
          have h1 : acc = items := congrArg (fun p => p.1) h'
          have h2 : ([] : List Nat) = rest := congrArg (fun p => p.2.1) h'
          exact ⟨[], by rw [← h1]; simp, trivial, by rw [← h2]; simp⟩
      · simp [pItems] at h
      · simp [pItems] at h
      · simp [pItems] at h
      · simp [pItems] at h
      · simp [pItems] at h
      · simp [pItems] at h
      · simp [pItems] at h
      · simp only [pItems] at h
        by_cases hdd : u16 g0 g1 = 65534 ∧ u16 e0 e1 = 57565
        · rw [if_pos hdd] at h
          injection h with h'
          have h1 : acc = items := congrArg (fun p => p.1) h'
          have h2 : rest0 = rest := congrArg (fun p => p.2.1) h'
          refine ⟨[], by rw [← h1]; simp, trivial, ?_⟩
          rw [← h2]
          intro x hx
          exact hb x (by simp [hx])
        · rw [if_neg hdd] at h
          by_cases hit : u16 g0 g1 = 65534 ∧ u16 e0 e1 = 57344
          · rw [if_pos hit] at h
            by_cases hundef : u32 l0 l1 l2 l3 = undefLen
            · rw [if_pos hundef] at h
              obtain ⟨⟨els1, rest2, off2, fo⟩, hpe⟩ :
                  ∃ t, pElems fuel rest0 (off + 8) true Option.none [] = t := ⟨_, rfl⟩
              rw [hpe] at h
              cases fo with
              | some f => simp at h
              | none =>
                obtain ⟨newE, hnewE, hwfE, hb2⟩ := ihEls rest0 (off + 8) true
                  Option.none [] els1 rest2 off2
                  (fun x hx => hb x (by simp [hx])) hpe
                obtain ⟨new2, hnew2, hwf2, hb3⟩ := ihItems rest2 off2 delimited
                  (acc ++ [els1]) items rest offE hb2 h
                refine ⟨els1 :: new2, ?_, ?_, hb3⟩
                · rw [hnew2, List.append_assoc]
                  rfl
                · refine ⟨?_, hwf2⟩
                  have hh : els1 = newE := by simpa using hnewE
                  rw [hh]
                  exact hwfE
            · rw [if_neg hundef] at h
              by_cases hlen : rest0.length < u32 l0 l1 l2 l3
              · rw [if_pos hlen] at h
                simp at h
              · rw [if_neg hlen] at h
                obtain ⟨⟨els1, rest2x, off2, fo⟩, hpe⟩ :
                    ∃ t, pElems fuel (rest0.take (u32 l0 l1 l2 l3)) (off + 8)
                      false Option.none [] = t := ⟨_, rfl⟩
                rw [hpe] at h
                cases fo with
                | some f => simp at h
                | none =>
                  obtain ⟨newE, hnewE, hwfE, hb2⟩ := ihEls
                    (rest0.take (u32 l0 l1 l2 l3)) (off + 8) false Option.none []
                    els1 rest2x off2
                    (bytes_take (fun x hx => hb x (by simp [hx]))) hpe
                  obtain ⟨new2, hnew2, hwf2, hb3⟩ := ihItems
                    (rest0.drop (u32 l0 l1 l2 l3)) (off + 8 + u32 l0 l1 l2 l3)
                    delimited (acc ++ [els1]) items rest offE
                    (bytes_drop (fun x hx => hb x (by simp [hx]))) h
                  refine ⟨els1 :: new2, ?_, ?_, hb3⟩
                  · rw [hnew2, List.append_assoc]
                    rfl
                  · refine ⟨?_, hwf2⟩
                    have hh : els1 = newE := by simpa using hnewE
                    rw [hh]
                    exact hwfE
          · rw [if_neg hit] at h
            simp at h
    · -- pFrags
      intro b off acc frags rest offE hb h
      rcases b with _ | ⟨g0, _ | ⟨g1, _ | ⟨e0, _ | ⟨e1, _ | ⟨l0, _ | ⟨l1, _ | ⟨l2, _ | ⟨l3, rest0⟩⟩⟩⟩⟩⟩⟩⟩
      · simp [pFrags] at h
      · simp [pFrags] at h
      · simp [pFrags] at h
      · simp [pFrags] at h
      · simp [pFrags] at h
      · simp [pFrags] at h
      · simp [pFrags] at h
      · simp [pFrags] at h
      · simp only [pFrags] at h
        have hl0 := hb l0 (by simp)
        have hl1 := hb l1 (by simp)
        have hl2 := hb l2 (by simp)
        have hl3 := hb l3 (by simp)
        by_cases hdd : u16 g0 g1 = 65534 ∧ u16 e0 e1 = 57565
        · rw [if_pos hdd] at h
          injection h with h'
          have h1 : acc = frags := congrArg (fun p => p.1) h'
          have h2 : rest0 = rest := congrArg (fun p => p.2.1) h'
          refine ⟨[], by rw [← h1]; simp, by intro f hf; simp at hf, ?_⟩
          rw [← h2]
          intro x hx
          exact hb x (by simp [hx])
        · rw [if_neg hdd] at h
          by_cases hit : u16 g0 g1 = 65534 ∧ u16 e0 e1 = 57344
          · rw [if_pos hit] at h
            by_cases hundef : u32 l0 l1 l2 l3 = undefLen
            · rw [if_pos hundef] at h
              simp at h
            · rw [if_neg hundef] at h
              by_cases hlen : rest0.length < u32 l0 l1 l2 l3
              · rw [if_pos hlen] at h
                simp at h
              · rw [if_neg hlen] at h
                obtain ⟨new2, hnew2, hwf2, hb3⟩ := ihFrags
                  (rest0.drop (u32 l0 l1 l2 l3)) (off + 8 + u32 l0 l1 l2 l3)
                  (acc ++ [rest0.take (u32 l0 l1 l2 l3)]) frags rest offE
                  (bytes_drop (fun x hx => hb x (by simp [hx]))) h
                refine ⟨rest0.take (u32 l0 l1 l2 l3) :: new2, ?_, ?_, hb3⟩
                · rw [hnew2, List.append_assoc]
                  rfl
                · intro f hf
                  rcases List.mem_cons.mp hf with h1 | h2
                  · subst h1
                    constructor
                    · exact bytes_take (fun x hx => hb x (by simp [hx]))
                    · rw [List.length_take]
                      have hu : u32 l0 l1 l2 l3 ≠ 4294967295 := by
                        simpa [undefLen] using hundef
                      have := u32_lt hl0 hl1 hl2 hl3
                      omega
                  · exact hwf2 f h2
          · rw [if_neg hit] at h
            simp at h
    · -- pPixSeq
      intro b off bot frags rest offE hb h
      rcases b with _ | ⟨g0, _ | ⟨g1, _ | ⟨e0, _ | ⟨e1, _ | ⟨l0, _ | ⟨l1, _ | ⟨l2, _ | ⟨l3, rest0⟩⟩⟩⟩⟩⟩⟩⟩
      · simp [pPixSeq] at h
      · simp [pPixSeq] at h
      · simp [pPixSeq] at h
      · simp [pPixSeq] at h
      · simp [pPixSeq] at h
      · simp [pPixSeq] at h
      · simp [pPixSeq] at h
      · simp [pPixSeq] at h
      · simp only [pPixSeq] at h
        have hl0 := hb l0 (by simp)
        have hl1 := hb l1 (by simp)
        have hl2 := hb l2 (by simp)
        have hl3 := hb l3 (by simp)
        by_cases hit : u16 g0 g1 = 65534 ∧ u16 e0 e1 = 57344
        · rw [if_pos hit] at h
          by_cases hundef : u32 l0 l1 l2 l3 = undefLen
          · rw [if_pos hundef] at h
            simp at h
          · rw [if_neg hundef] at h
            by_cases hlen : rest0.length < u32 l0 l1 l2 l3
            · rw [if_pos hlen] at h
              simp at h
            · rw [if_neg hlen] at h
              cases hch : chunk32 (rest0.take (u32 l0 l1 l2 l3)) with
              | none => rw [hch] at h; simp at h
              | some bot' =>
                rw [hch] at h
                cases hpf : pFrags fuel (rest0.drop (u32 l0 l1 l2 l3))
                    (off + 8 + u32 l0 l1 l2 l3) [] with
                | error f => rw [hpf] at h; simp at h
                | ok t =>
                  obtain ⟨frags', rest2, off2⟩ := t
                  rw [hpf] at h
                  injection h with h'
                  have hb1 : bot' = bot := congrArg (fun p => p.1) h'
                  have hf1 : frags' = frags := congrArg (fun p => p.2.1) h'
                  have hr1 : rest2 = rest := congrArg (fun p => p.2.2.1) h'
                  obtain ⟨newF, hnewF, hwfF, hb2⟩ := ihFrags
                    (rest0.drop (u32 l0 l1 l2 l3)) (off + 8 + u32 l0 l1 l2 l3)
                    [] frags' rest2 off2
                    (bytes_drop (fun x hx => hb x (by simp [hx]))) hpf
                  have hprops := chunk32_props _ _ hch
                  refine ⟨?_, ?_, ?_, ?_⟩
                  · rw [← hb1]
                    exact hprops.2 (bytes_take (fun x hx => hb x (by simp [hx])))
                  · rw [← hb1]
                    have hlen4 := hprops.1
                    rw [List.length_take] at hlen4
                    have hu : u32 l0 l1 l2 l3 ≠ 4294967295 := by
                      simpa [undefLen] using hundef
                    have := u32_lt hl0 hl1 hl2 hl3
                    omega
                  · rw [← hf1]
                    have hh : frags' = newF := by simpa using hnewF
                    rw [hh]
                    exact hwfF
                  · rw [← hr1]
                    exact hb2
        · rw [if_neg hit] at h
          simp at h




theorem sizeE_pos (e : DElem) : 1 ≤ sizeE e := by
  cases e with
  | mk t v o x => simp [sizeE]

theorem sizeEls_pos (l : DataSet) : 1 ≤ sizeEls l := by
  cases l with
  | nil => simp [sizeEls]
  | cons e r => simp [sizeEls]; omega

theorem sizeEls_ge_length (l : DataSet) : l.length + 1 ≤ sizeEls l := by
  induction l with
  | nil => simp [sizeEls]
  | cons e r ih =>
    have := sizeE_pos e
    simp only [List.length_cons, sizeEls]
    omega

theorem rtFrags : ∀ (frags : List (List Nat)), WFfrags frags →
    ∀ fuel, frags.length + 1 ≤ fuel → ∀ off acc rest,
    ∃ offE, pFrags fuel (writeFrags frags ++ delimBytes 57565 ++ rest) off acc =
      .ok (acc ++ frags, rest, offE) := by
  intro frags
  induction frags with
  | nil =>
    intro hwf fuel hfuel off acc rest
    match fuel, hfuel with
    | fuel + 1, _ =>
      refine ⟨off + 8, ?_⟩
      simp [writeFrags, delimBytes, w16, w32, pFrags, u16]
  | cons f fs ih =>
    intro hwf fuel hfuel off acc rest
    match fuel, hfuel with
    | fuel + 1, hfuel =>
      have hf := hwf f (by simp)
      have hlen : f.length < 4294967295 := hf.2
      obtain ⟨offE, hrec⟩ := ih (fun x hx => hwf x (by simp [hx])) fuel
        (by simpa using Nat.lt_of_succ_le hfuel) (off + 8 + f.length)
        (acc ++ [f]) rest
      refine ⟨offE, ?_⟩
      have hshape : writeFrags (f :: fs) ++ delimBytes 57565 ++ rest =
          254 :: 255 :: 0 :: 224 :: (f.length % 256) :: (f.length / 256 % 256) ::
          (f.length / 65536 % 256) :: (f.length / 16777216 % 256) ::
          (f ++ (writeFrags fs ++ delimBytes 57565 ++ rest)) := by
        simp [writeFrags, itemHeader, w16, w32, List.append_assoc]
      rw [hshape]
      simp only [pFrags]
      have hu : u32 (f.length % 256) (f.length / 256 % 256)
          (f.length / 65536 % 256) (f.length / 16777216 % 256) = f.length :=
        u32_w32 (by omega)
      rw [hu]
      have h1 : ¬(u16 254 255 = 65534 ∧ u16 0 224 = 57565) := by simp [u16]
      have h2 : u16 254 255 = 65534 ∧ u16 0 224 = 57344 := by simp [u16]
      rw [if_neg h1, if_pos h2]
      have h3 : ¬(f.length = undefLen) := by simp [undefLen]; omega
      rw [if_neg h3]
      have h4 : ¬((f ++ (writeFrags fs ++ delimBytes 57565 ++ rest)).length <
          f.length) := by
        simp
      rw [if_neg h4]
      rw [List.take_left' rfl, List.drop_left' rfl]
      rw [show acc ++ f :: fs = acc ++ [f] ++ fs from by simp]
      exact hrec

theorem rtPixSeq (bot : List Nat) (frags : List (List Nat))
    (hbot : ∀ n ∈ bot, n < 4294967296) (hbl : 4 * bot.length < 4294967295)
    (hwf : WFfrags frags) :
    ∀ fuel, frags.length + 2 ≤ fuel → ∀ off rest,
    ∃ offE, pPixSeq fuel
      (itemHeader (4 * bot.length) ++ w32s bot ++ writeFrags frags ++
        delimBytes 57565 ++ rest) off =
      .ok (bot, frags, rest, offE) := by
  intro fuel hfuel off rest
  match fuel, hfuel with
  | fuel + 1, hfuel =>
    obtain ⟨offE, hok⟩ := rtFrags frags hwf fuel
      (by omega) (off + 8 + 4 * bot.length) [] rest
    refine ⟨offE, ?_⟩
    have hshape : itemHeader (4 * bot.length) ++ w32s bot ++ writeFrags frags ++
        delimBytes 57565 ++ rest =
        254 :: 255 :: 0 :: 224 :: (4 * bot.length % 256) ::
        (4 * bot.length / 256 % 256) :: (4 * bot.length / 65536 % 256) ::
        (4 * bot.length / 16777216 % 256) ::
        (w32s bot ++ (writeFrags frags ++ delimBytes 57565 ++ rest)) := by
      simp [itemHeader, w16, w32, List.append_assoc]
    rw [hshape]
    simp only [pPixSeq]
    have h2 : u16 254 255 = 65534 ∧ u16 0 224 = 57344 := by simp [u16]
    rw [if_pos h2]
    have hu : u32 (4 * bot.length % 256) (4 * bot.length / 256 % 256)
        (4 * bot.length / 65536 % 256) (4 * bot.length / 16777216 % 256) =
        4 * bot.length := u32_w32 (by omega)
    rw [hu]
    have h3 : ¬(4 * bot.length = undefLen) := by simp [undefLen]; omega
    rw [if_neg h3]
    have h4 : ¬((w32s bot ++ (writeFrags frags ++ delimBytes 57565 ++ rest)).length <
        4 * bot.length) := by
      simp [w32s_length]
    rw [if_neg h4]
    rw [List.take_left' (w32s_length bot), List.drop_left' (w32s_length bot)]
    rw [chunk32_w32s bot hbot]
    rw [hok]
    simp

/-! ## Round-trip: re-parsing serializer output reconstructs the tree -/

theorem rtAll : ∀ n : Nat,
    (∀ e : DElem, sizeE e ≤ n → WFe e → ∀ fuel, sizeE e ≤ fuel → ∀ off rest,
      ∃ el' offE, pElem fuel (writeE e ++ rest) off = .ok (el', rest, offE) ∧
        stripE el' = stripE e) ∧
    (∀ els : DataSet, sizeEls els ≤ n → ∀ lastTag, WFds lastTag els →
      ∀ fuel, sizeEls els ≤ fuel → ∀ inItem suffix off acc,
      ∃ els' offE,
        pElems fuel (writeEls els ++ suffix) off inItem lastTag acc =
          pElems (fuel - els.length) suffix offE inItem (lastTagOf lastTag els)
            (acc ++ els') ∧
        stripEls els' = stripEls els) ∧
    (∀ items : List (List DElem), sizeItems items ≤ n → WFitems items →
      ∀ fuel, sizeItems items ≤ fuel → ∀ off acc rest,
      ∃ items' offE, pItems fuel (writeItems items ++ delimBytes 57565 ++ rest)
          off true acc = .ok (acc ++ items', rest, offE) ∧
        stripItems items' = stripItems items) := by
  intro n
  induction n using Nat.strong_induction_on with
  | _ n ih =>
  refine ⟨?_, ?_, ?_⟩
  · -- elements
    intro e hsize hwf fuel hfuel off rest
    obtain ⟨tag, vr, off0, val⟩ := e
    cases val with
    | raw d =>
      obtain ⟨htagb, hgrp, hval⟩ := hwf
      obtain ⟨hvn, hvp, hvsq, hbytes, hlenb⟩ := hval
      cases fuel with
      | zero => simp only [sizeE, sizeV] at hfuel; omega
      | succ fuel =>
      cases hlong : vr.isLong with
      | true =>
        rw [hlong] at hlenb
        simp only [eq_self_iff_true, if_true] at hlenb
        refine ⟨DElem.mk tag vr off (DValue.raw d), off + 12 + d.length, ?_, rfl⟩
        have hsh : writeE (DElem.mk tag vr off0 (DValue.raw d)) ++ rest =
            (tag / 65536 % 256) :: (tag / 65536 / 256 % 256) ::
            (tag % 65536 % 256) :: (tag % 65536 / 256 % 256) ::
            (codeOfVR vr).1 :: (codeOfVR vr).2 :: 0 :: 0 ::
            (d.length % 256) :: (d.length / 256 % 256) ::
            (d.length / 65536 % 256) :: (d.length / 16777216 % 256) ::
            (d ++ rest) := by
          simp [writeE, tagBytes, w16, w32, hlong, List.append_assoc]
        rw [hsh]
        simp only [pElem]
        rw [vrOfCode_codeOfVR vr hvn hvp]
        dsimp only
        rw [hlong]
        simp only [eq_self_iff_true, if_true]
        have hu : u32 (d.length % 256) (d.length / 256 % 256)
            (d.length / 65536 % 256) (d.length / 16777216 % 256) = d.length :=
          u32_w32 (by omega)
        rw [hu]
        rw [if_neg (show ¬(d.length = undefLen) from by simp [undefLen]; omega)]
        rw [if_neg hvsq]
        rw [if_neg (show ¬((d ++ rest).length < d.length) from by simp)]
        rw [List.take_left, List.drop_left]
        rw [u16_tag_hi htagb, u16_tag_lo,
          show tag / 65536 * 65536 + tag % 65536 = tag from by omega]
      | false =>
        rw [hlong] at hlenb
        simp only [Bool.false_eq_true, if_false] at hlenb
        refine ⟨DElem.mk tag vr off (DValue.raw d), off + 8 + d.length, ?_, rfl⟩
        have hsh : writeE (DElem.mk tag vr off0 (DValue.raw d)) ++ rest =
            (tag / 65536 % 256) :: (tag / 65536 / 256 % 256) ::
            (tag % 65536 % 256) :: (tag % 65536 / 256 % 256) ::
            (codeOfVR vr).1 :: (codeOfVR vr).2 ::
            (d.length % 256) :: (d.length / 256 % 256) ::
            (d ++ rest) := by
          simp [writeE, tagBytes, w16, w32, hlong, List.append_assoc]
        rw [hsh]
        simp only [pElem]
        rw [vrOfCode_codeOfVR vr hvn hvp]
        dsimp only
        rw [hlong]
        simp only [Bool.false_eq_true, if_false]
        have hu : u16 (d.length % 256) (d.length / 256 % 256) = d.length :=
          u16_w16 (by omega)
        rw [hu]
        rw [if_neg (show ¬((d ++ rest).length < d.length) from by simp)]
        rw [List.take_left, List.drop_left]
        rw [u16_tag_hi htagb, u16_tag_lo,
          show tag / 65536 * 65536 + tag % 65536 = tag from by omega]
    | sq items =>
      obtain ⟨htagb, hgrp, hval⟩ := hwf
      obtain ⟨hvsq, hwfi⟩ := hval
      subst hvsq
      cases fuel with
      | zero => simp only [sizeE, sizeV] at hfuel; omega
      | succ fuel =>
      have hsi : sizeItems items < n := by
        simp only [sizeE, sizeV] at hsize
        omega
      have hfi : sizeItems items ≤ fuel := by
        simp only [sizeE, sizeV] at hfuel
        omega
      obtain ⟨items', offE, hpit, hstrip⟩ := (ih (sizeItems items) hsi).2.2 items
        (le_refl _) hwfi fuel hfi (off + 12) [] rest
      simp only [List.nil_append] at hpit
      refine ⟨DElem.mk tag VR.SQ off (DValue.sq items'), offE, ?_, ?_⟩
      · have hsh : writeE (DElem.mk tag VR.SQ off0 (DValue.sq items)) ++ rest =
            (tag / 65536 % 256) :: (tag / 65536 / 256 % 256) ::
            (tag % 65536 % 256) :: (tag % 65536 / 256 % 256) ::
            83 :: 81 :: 0 :: 0 :: 255 :: 255 :: 255 :: 255 ::
            (writeItems items ++ (delimBytes 57565 ++ rest)) := by
          simp [writeE, tagBytes, w16, w32, undefLen, List.append_assoc]
        rw [hsh]
        simp only [pElem]
        rw [show vrOfCode 83 81 = some VR.SQ from rfl]
        dsimp only
        rw [if_pos (show VR.SQ.isLong = true from rfl)]
        rw [show u32 255 255 255 255 = undefLen from rfl]
        rw [if_pos rfl, if_pos rfl]
        rw [show writeItems items ++ (delimBytes 57565 ++ rest) =
          writeItems items ++ delimBytes 57565 ++ rest from by
            rw [List.append_assoc]]
        rw [hpit]
        dsimp only
        rw [u16_tag_hi htagb, u16_tag_lo,
          show tag / 65536 * 65536 + tag % 65536 = tag from by omega]
      · simp only [stripE, stripV, hstrip]
    | px bot frags =>
      obtain ⟨htagb, hgrp, hval⟩ := hwf
      obtain ⟨hvpx, hbot, hbl, hwff⟩ := hval
      subst hvpx
      cases fuel with
      | zero => simp only [sizeE, sizeV] at hfuel; omega
      | succ fuel =>
      have hfp : frags.length + 2 ≤ fuel := by
        simp only [sizeE, sizeV] at hfuel
        omega
      obtain ⟨offE, hpix⟩ := rtPixSeq bot frags hbot hbl hwff fuel hfp (off + 12) rest
      refine ⟨DElem.mk tag VR.PX off (DValue.px bot frags), offE, ?_, rfl⟩
      have hsh : writeE (DElem.mk tag VR.PX off0 (DValue.px bot frags)) ++ rest =
          (tag / 65536 % 256) :: (tag / 65536 / 256 % 256) ::
          (tag % 65536 % 256) :: (tag % 65536 / 256 % 256) ::
          79 :: 66 :: 0 :: 0 :: 255 :: 255 :: 255 :: 255 ::
          (itemHeader (4 * bot.length) ++ w32s bot ++ writeFrags frags ++
            delimBytes 57565 ++ rest) := by
        simp [writeE, tagBytes, w16, w32, undefLen, itemHeader, List.append_assoc]
      rw [hsh]
      simp only [pElem]
      rw [show vrOfCode 79 66 = some VR.OB from rfl]
      dsimp only
      rw [if_pos (show VR.OB.isLong = true from rfl)]
      rw [show u32 255 255 255 255 = undefLen from rfl]
      rw [if_pos rfl]
      rw [if_neg (show ¬(VR.OB = VR.SQ) from by decide)]
      rw [if_pos (show VR.OB = VR.OB ∨ VR.OB = VR.OW ∨ VR.OB = VR.UN from
        Or.inl rfl)]
      rw [hpix]
      dsimp only
      rw [u16_tag_hi htagb, u16_tag_lo,
        show tag / 65536 * 65536 + tag % 65536 = tag from by omega]
  · -- element loop over writer output
    intro els hsize lastTag hwf fuel hfuel inItem suffix off acc
    cases els with
    | nil =>
      refine ⟨[], off, ?_, rfl⟩
      simp [writeEls, lastTagOf]
    | cons e els' =>
      obtain ⟨hlb, hwfe, hwfr⟩ := hwf
      have hpE := sizeE_pos e
      have hpEls := sizeEls_pos els'
      have hszE : sizeE e < n := by
        simp only [sizeEls] at hsize
        omega
      have hszEls : sizeEls els' < n := by
        simp only [sizeEls] at hsize
        omega
      cases fuel with
      | zero => simp only [sizeEls] at hfuel; omega
      | succ fuel =>
      have hfE : sizeE e ≤ fuel := by
        simp only [sizeEls] at hfuel
        omega
      have hfEls : sizeEls els' ≤ fuel := by
        simp only [sizeEls] at hfuel
        omega
      obtain ⟨el', off2, hpe, hstripE⟩ := (ih (sizeE e) hszE).1 e (le_refl _)
        hwfe fuel hfE off (writeEls els' ++ suffix)
      obtain ⟨tg, vr, o0, val⟩ := e
      have hlb' : lbLt lastTag tg := hlb
      obtain ⟨htagb, hgrp, hval⟩ := hwfe
      obtain ⟨tail, htail⟩ : ∃ tail, writeE (DElem.mk tg vr o0 val) =
          (tg / 65536 % 256) :: (tg / 65536 / 256 % 256) ::
          (tg % 65536 % 256) :: (tg % 65536 / 256 % 256) :: tail := by
        cases val with
        | raw d =>
          refine ⟨[(codeOfVR vr).1, (codeOfVR vr).2] ++
            (if vr.isLong then [0, 0] ++ w32 d.length else w16 d.length) ++ d, ?_⟩
          simp [writeE, tagBytes, w16, List.append_assoc]
        | sq items =>
          refine ⟨[83, 81, 0, 0] ++ w32 undefLen ++ writeItems items ++
            delimBytes 57565, ?_⟩
          simp [writeE, tagBytes, w16, List.append_assoc]
        | px bot frags =>
          refine ⟨[79, 66, 0, 0] ++ w32 undefLen ++ itemHeader (4 * bot.length) ++
            w32s bot ++ writeFrags frags ++ delimBytes 57565, ?_⟩
          simp [writeE, tagBytes, w16, List.append_assoc]
      obtain ⟨els'', offE, hrec, hstripR⟩ := (ih (sizeEls els') hszEls).2.1 els'
        (le_refl _) (some tg) hwfr fuel hfEls inItem suffix off2 (acc ++ [el'])
      refine ⟨el' :: els'', offE, ?_, ?_⟩
      · have hshape : writeEls (DElem.mk tg vr o0 val :: els') ++ suffix =
            (tg / 65536 % 256) :: (tg / 65536 / 256 % 256) ::
            (tg % 65536 % 256) :: (tg % 65536 / 256 % 256) ::
            (tail ++ (writeEls els' ++ suffix)) := by
          simp [writeEls, htail, List.append_assoc]
        rw [hshape]
        simp only [pElems]
        rw [u16_tag_hi htagb, u16_tag_lo,
          show tg / 65536 * 65536 + tg % 65536 = tg from by omega]
        rw [if_neg hgrp]
        rw [if_pos (tagOrderOk_of_lbLt hlb')]
        have harg : (tg / 65536 % 256) :: (tg / 65536 / 256 % 256) ::
            (tg % 65536 % 256) :: (tg % 65536 / 256 % 256) ::
            (tail ++ (writeEls els' ++ suffix)) =
            writeE (DElem.mk tg vr o0 val) ++ (writeEls els' ++ suffix) := by
          rw [htail]
          simp
        rw [harg, hpe]
        dsimp only
        rw [hrec]
        have hlast : lastTagOf lastTag (DElem.mk tg vr o0 val :: els') =
            lastTagOf (some tg) els' := rfl
        rw [hlast]
        have hacc : acc ++ el' :: els'' = acc ++ [el'] ++ els'' := by simp
        rw [hacc]
        have hfl : fuel + 1 - (DElem.mk tg vr o0 val :: els').length =
            fuel - els'.length := by
          simp
        rw [hfl]
      · simp only [stripEls, hstripR]
        rw [hstripE]
  · -- item loop over writer output
    intro items hsize hwfi fuel hfuel off acc rest
    cases items with
    | nil =>
      cases fuel with
      | zero => simp only [sizeItems] at hfuel; omega
      | succ fuel =>
      refine ⟨[], off + 8, ?_, rfl⟩
      simp [writeItems, delimBytes, w16, w32, pItems, u16]
    | cons d items' =>
      obtain ⟨hwfd, hwfr⟩ := hwfi
      have hpD := sizeEls_pos d
      have hpI : 1 ≤ sizeItems items' := by
        cases items' with
        | nil => simp [sizeItems]
        | cons a b => simp [sizeItems]; omega
      have hlenD := sizeEls_ge_length d
      have hszD : sizeEls d < n := by
        simp only [sizeItems] at hsize
        omega
      have hszI : sizeItems items' < n := by
        simp only [sizeItems] at hsize
        omega
      cases fuel with
      | zero => simp only [sizeItems] at hfuel; omega
      | succ fuel =>
      have hfD : sizeEls d ≤ fuel := by
        simp only [sizeItems] at hfuel
        omega
      have hfI : sizeItems items' ≤ fuel := by
        simp only [sizeItems] at hfuel
        omega
      obtain ⟨els', off2, hgen, hstripD⟩ := (ih (sizeEls d) hszD).2.1 d
        (le_refl _) Option.none hwfd fuel hfD true
        (delimBytes 57357 ++ (writeItems items' ++ delimBytes 57565 ++ rest))
        (off + 8) []
      simp only [List.nil_append] at hgen
      obtain ⟨items'', offE, hrecI, hstripR⟩ := (ih (sizeItems items') hszI).2.2
        items' (le_refl _) hwfr fuel hfI (off2 + 8) (acc ++ [els']) rest
      refine ⟨els' :: items'', offE, ?_, ?_⟩
      · have hshape : writeItems (d :: items') ++ delimBytes 57565 ++ rest =
            254 :: 255 :: 0 :: 224 :: 255 :: 255 :: 255 :: 255 ::
            (writeEls d ++
              (delimBytes 57357 ++ (writeItems items' ++ delimBytes 57565 ++ rest))) := by
          simp [writeItems, itemHeader, delimBytes, w16, w32, undefLen,
            List.append_assoc]
        rw [hshape]
        simp only [pItems]
        rw [if_neg (show ¬(u16 254 255 = 65534 ∧ u16 0 224 = 57565) from by
          simp [u16])]
        rw [if_pos (show u16 254 255 = 65534 ∧ u16 0 224 = 57344 from by
          simp [u16])]
        rw [show u32 255 255 255 255 = undefLen from rfl]
        rw [if_pos rfl]
        rw [hgen]
        rw [show fuel - d.length = (fuel - d.length - 1) + 1 from by omega]
        rw [pElems_delim_step]
        dsimp only
        rw [hrecI]
        have hacc : acc ++ els' :: items'' = acc ++ [els'] ++ items'' := by simp
        rw [hacc]
      · simp only [stripItems, hstripR]
        rw [hstripD]


theorem writeFrags_length_ge (frags : List (List Nat)) :
    frags.length ≤ (writeFrags frags).length := by
  induction frags with
  | nil => simp [writeFrags]
  | cons f fs ih =>
    simp only [writeFrags, List.length_cons, List.length_append, itemHeader,
      w16, w32]
    simp at ih ⊢
    omega

theorem sizeLe : ∀ n : Nat,
    (∀ e : DElem, sizeE e ≤ n → sizeE e + 1 ≤ (writeE e).length) ∧
    (∀ els : DataSet, sizeEls els ≤ n → sizeEls els ≤ (writeEls els).length + 1) ∧
    (∀ items : List (List DElem), sizeItems items ≤ n →
      sizeItems items ≤ (writeItems items).length + 8) := by
  intro n
  induction n using Nat.strong_induction_on with
  | _ n ih =>
  refine ⟨?_, ?_, ?_⟩
  · intro e hsize
    obtain ⟨tag, vr, off0, val⟩ := e
    cases val with
    | raw d =>
      simp only [sizeE, sizeV, writeE, tagBytes, w16, w32, List.length_append,
        List.length_cons]
      cases hlong : vr.isLong with
      | true => simp [hlong]; omega
      | false => simp [hlong]; omega
    | sq items =>
      have hs : sizeItems items < n := by
        simp only [sizeE, sizeV] at hsize
        omega
      have hi := (ih (sizeItems items) hs).2.2 items (le_refl _)
      simp only [sizeE, sizeV, writeE, tagBytes, w16, w32, delimBytes,
        List.length_append, List.length_cons] at *
      simp at *
      omega
    | px bot frags =>
      have hf := writeFrags_length_ge frags
      simp only [sizeE, sizeV, writeE, tagBytes, w16, w32, delimBytes,
        itemHeader, List.length_append, List.length_cons] at *
      simp at *
      omega
  · intro els hsize
    cases els with
    | nil => simp [sizeEls, writeEls]
    | cons e els' =>
      have h1 : sizeE e < n := by
        have := sizeEls_pos els'
        simp only [sizeEls] at hsize
        omega
      have h2 : sizeEls els' < n := by
        have := sizeE_pos e
        simp only [sizeEls] at hsize
        omega
      have hi1 := (ih (sizeE e) h1).1 e (le_refl _)
      have hi2 := (ih (sizeEls els') h2).2.1 els' (le_refl _)
      simp only [sizeEls, writeEls, List.length_append]
      omega
  · intro items hsize
    cases items with
    | nil => simp [sizeItems, writeItems]
    | cons d items' =>
      have h1 : sizeEls d < n := by
        have : 1 ≤ sizeItems items' := by
          cases items' with
          | nil => simp [sizeItems]
          | cons a b => simp [sizeItems]; omega
        simp only [sizeItems] at hsize
        omega
      have h2 : sizeItems items' < n := by
        have := sizeEls_pos d
        simp only [sizeItems] at hsize
        omega
      have hi1 := (ih (sizeEls d) h1).2.1 d (le_refl _)
      have hi2 := (ih (sizeItems items') h2).2.2 items' (le_refl _)
      simp only [sizeItems, writeItems, itemHeader, delimBytes, w16, w32,
        List.length_append, List.length_cons]
      simp
      omega

theorem sigSplit_write (x : List Nat) :
    sigSplit (filePreamble ++ dicmMagic ++ x) = some (x, 132) := by
  unfold sigSplit
  have hlen : (filePreamble ++ dicmMagic).length = 132 := by
    simp [filePreamble, dicmMagic]
  rw [List.append_assoc, ← List.append_assoc]
  rw [List.take_left' hlen, List.drop_left' hlen]
  simp


/-! ## Claim C1: structural round-trip through the serializer -/

theorem roundtripBody : ∀ els : DataSet, WFds Option.none els →
    ∃ els', parseBody (writeEls els) 132 = (els', Option.none) ∧
      stripEls els' = stripEls els := by
  intro els hwf
  have hfuel : sizeEls els ≤ (writeEls els).length + 1 :=
    (sizeLe (sizeEls els)).2.1 els (le_refl _)
  obtain ⟨els', offE, hgen, hstrip⟩ := (rtAll (sizeEls els)).2.1 els (le_refl _)
    Option.none hwf ((writeEls els).length + 1) hfuel false [] 132 []
  rw [List.append_nil] at hgen
  have hge := sizeEls_ge_length els
  obtain ⟨k, hk⟩ : ∃ k, (writeEls els).length + 1 - els.length = k + 1 :=
    ⟨(writeEls els).length - els.length, by omega⟩
  refine ⟨els', ?_, hstrip⟩
  unfold parseBody
  rw [hgen, hk, pElems_nil_step]
  simp

theorem parseOk_WF (body : List Nat) (start : Nat) (els : DataSet)
    (hbody : ∀ x ∈ body, x < 256)
    (hp : parseBody body start = (els, Option.none)) :
    WFds Option.none els := by
  unfold parseBody at hp
  obtain ⟨⟨els0, rest0, off0, fo0⟩, hpe⟩ :
      ∃ t, pElems (body.length + 1) body start false Option.none [] = t :=
    ⟨_, rfl⟩
  rw [hpe] at hp
  have h1 : els0 = els := congrArg (fun p => p.1) hp
  have h2 : fo0 = Option.none := congrArg (fun p => p.2) hp
  subst h1
  subst h2
  obtain ⟨new, hnew, hwf0, _⟩ := (parserWF (body.length + 1)).1 body start
    false Option.none [] els0 rest0 off0 hbody hpe
  have : els0 = new := by simpa using hnew
  rw [this]
  exact hwf0

/-- C1: for every well-formed DICOM byte stream `b` (a stream of bytes
that the reader parses without fault), parsing `b`, re-serializing the
resulting data set with `write_bytes`, and parsing the result yields a
DataSet structurally equivalent to the first parse — equal after erasing
the diagnostic stream offsets, hence the same tag sequence, the same VR
per tag, the same raw values, the same sequence items, and for
encapsulated pixel data the same Basic Offset Table and the same
fragments per frame.  Byte-identical output is not required (offsets and
length-encoding choices may differ). -/
theorem claim_C1_parse_write_parse_structural_roundtrip (b : List Nat) (name name2 : String) (df : DicomFile)
    (hb : ∀ x ∈ b, x < 256)
    (h : parse b ⟨false, name⟩ = .ok df) :
    ∃ df', parse (write_bytes df.dataset) ⟨false, name2⟩ = .ok df' ∧
      stripEls df'.dataset = stripEls df.dataset ∧
      df.has_error = false ∧ df'.has_error = false := by
  cases hs : sigSplit b with
  | none =>
    have hdf : df = ⟨name, [], false, Option.none, 0⟩ := by
      simp only [parse, hs] at h
      injection h with h'
      exact h'.symm
    subst hdf
    obtain ⟨els', hpb, hstrip⟩ := roundtripBody [] trivial
    refine ⟨⟨name2, els', false, Option.none, 0⟩, ?_, by simpa using hstrip,
      rfl, rfl⟩
    unfold parse write_bytes
    dsimp only
    rw [sigSplit_write]
    dsimp only
    rw [hpb]
  | some content =>
    obtain ⟨body, start⟩ := content
    have hbody : ∀ x ∈ body, x < 256 := by
      unfold sigSplit at hs
      split_ifs at hs with h1 h2
      · injection hs with hs'
        have hb2 : body = b.drop 132 := (congrArg (fun p => p.1) hs').symm
        rw [hb2]
        exact bytes_drop hb
      · injection hs with hs'
        have hb2 : body = b.drop 4 := (congrArg (fun p => p.1) hs').symm
        rw [hb2]
        exact bytes_drop hb
    cases hp : parseBody body start with
    | mk els fo =>
      cases fo with
      | some f => simp [parse, hs, hp] at h
      | none =>
        have hdf : df = ⟨name, els, false, Option.none, 0⟩ := by
          simp only [parse, hs] at h
          rw [hp] at h
          injection h with h'
          exact h'.symm
        subst hdf
        have hwf := parseOk_WF body start els hbody hp
        obtain ⟨els', hpb, hstrip⟩ := roundtripBody els hwf
        refine ⟨⟨name2, els', false, Option.none, 0⟩, ?_, hstrip, rfl, rfl⟩
        unfold parse write_bytes
        dsimp only
        rw [sigSplit_write]
        dsimp only
        rw [hpb]

set_option maxRecDepth 100000 in
theorem claim_C1_witness :
    ∃ df', parse (write_bytes seqPixelParsed.dataset) ⟨false, "memory"⟩ = .ok df' ∧
      stripEls df'.dataset = stripEls seqPixelParsed.dataset ∧
      seqPixelParsed.has_error = false ∧ df'.has_error = false :=
  claim_C1_parse_write_parse_structural_roundtrip seqPixelSample "memory" "memory"
    seqPixelParsed (by decide) (by rfl)

/-! ## Claim C2: the lookup contract never fails and hides a sentinel -/

/-- C2: for every DataSet and every tag or keyword not present in it,
`get_dataelement` does not fail: it returns the missing-element sentinel,
for which `is_present()` is false, `is_missing()` is true, truthiness is
false, and the VR is the "none" sentinel; for every present tag the
returned element has `is_present()` true, `is_missing()` false, and
truthiness true. -/
theorem claim_C2_get_dataelement_sentinel_contract (ds : DataSet)
    (hds : ∀ e ∈ ds, e.vr ≠ VR.none) :
    (∀ t : Nat, hasTag ds t = false →
      get_dataelement ds t = missingElement ∧
      (get_dataelement ds t).is_present = false ∧
      (get_dataelement ds t).is_missing = true ∧
      (get_dataelement ds t).truthy = false ∧
      (get_dataelement ds t).vr = VR.none) ∧
    (∀ kw : String, hasKeyword ds kw = false →
      (get_dataelement_kw ds kw).is_present = false ∧
      (get_dataelement_kw ds kw).is_missing = true ∧
      (get_dataelement_kw ds kw).truthy = false ∧
      (get_dataelement_kw ds kw).vr = VR.none) ∧
    (∀ t : Nat, hasTag ds t = true →
      (get_dataelement ds t).is_present = true ∧
      (get_dataelement ds t).is_missing = false ∧
      (get_dataelement ds t).truthy = true) := by
  have absent : ∀ t : Nat, hasTag ds t = false →
      get_dataelement ds t = missingElement := by
    intro t ht
    unfold get_dataelement
    have hnone : ds.find? (fun e => e.tag == t) = Option.none := by
      rw [List.find?_eq_none]
      intro x hx hxt
      have hmem : hasTag ds t = true := by
        unfold hasTag
        rw [List.any_eq_true]
        exact ⟨x, hx, hxt⟩
      rw [hmem] at ht
      exact Bool.noConfusion ht
    rw [hnone]
  have present : ∀ t : Nat, hasTag ds t = true →
      ∃ e, get_dataelement ds t = e ∧ e ∈ ds := by
    intro t ht
    unfold hasTag at ht
    rw [List.any_eq_true] at ht
    obtain ⟨x, hx, hxt⟩ := ht
    have hsome : (ds.find? (fun e => e.tag == t)).isSome := by
      rw [List.find?_isSome]
      exact ⟨x, hx, hxt⟩
    obtain ⟨e, he⟩ := Option.isSome_iff_exists.mp hsome
    refine ⟨e, ?_, List.mem_of_find?_eq_some he⟩
    unfold get_dataelement
    rw [he]
  refine ⟨?_, ?_, ?_⟩
  · intro t ht
    have h := absent t ht
    rw [h]
    exact ⟨rfl, rfl, rfl, rfl, rfl⟩
  · intro kw hkw
    unfold get_dataelement_kw
    unfold hasKeyword at hkw
    cases hres : keyword_to_tag_vr kw with
    | none => exact ⟨rfl, rfl, rfl, rfl⟩
    | some tv =>
      rw [hres] at hkw
      have h := absent tv.1 hkw
      simp only [h]
      exact ⟨rfl, rfl, rfl, rfl⟩
  · intro t ht
    obtain ⟨e, hgot, hmem⟩ := present t ht
    have hne : e.vr ≠ VR.none := hds e hmem
    rw [hgot]
    refine ⟨?_, ?_, ?_⟩
    · simp only [DElem.is_present, bne_iff_ne, ne_eq]
      exact hne
    · simp only [DElem.is_missing, beq_eq_false_iff_ne, ne_eq]
      exact hne
    · simp only [DElem.truthy, DElem.is_present, bne_iff_ne, ne_eq]
      exact hne

/-- Witness for C2 on the in-memory sample: the absent PatientName tag
and an unknown keyword yield the falsy sentinel, the present Rows tag a
truthy element. -/
theorem claim_C2_witness :
    (get_dataelement sampleDataSet 1048592).is_missing = true ∧
    (get_dataelement sampleDataSet 1048592).truthy = false ∧
    (get_dataelement_kw sampleDataSet "NotARealKeyword").vr = VR.none ∧
    (get_dataelement sampleDataSet 2621456).is_present = true := by
  have h := claim_C2_get_dataelement_sentinel_contract sampleDataSet (by decide)
  exact ⟨(h.1 1048592 (by decide)).2.2.1, (h.1 1048592 (by decide)).2.2.2.1,
    (h.2.1 "NotARealKeyword" (by decide)).2.2.2,
    (h.2.2 2621456 (by decide)).1⟩

/-! ## Claim C3: the tolerant mode records the fault and keeps partial data -/

/-- C3: for every byte stream whose parse with default options fails with
a structural `ParseError` fault, parsing the same bytes with
`keep_on_error = true` instead returns a DicomFile with `has_error`
true, a non-empty `error_message` describing the same fault, and a
dataset holding exactly the elements the reader had built before the
fault (partial data is not dropped). -/
theorem claim_C3_keep_on_error_preserves_parsed (b : List Nat)
    (name : String) (f : Fault)
    (h : parse b ⟨false, name⟩ = .error f) :
    parse b ⟨true, name⟩ =
      .ok ⟨name, parsedBeforeFault b, true, some f.kind.describe, f.off⟩ ∧
    f.kind.describe ≠ "" := by
  constructor
  · cases hs : sigSplit b with
    | none => simp [parse, hs] at h
    | some content =>
      obtain ⟨body, start⟩ := content
      cases hp : parseBody body start with
      | mk els fo =>
        cases fo with
        | none => simp [parse, hs, hp] at h
        | some f' =>
          have hf : f' = f := by simpa [parse, hs, hp] using h
          simp [parse, parsedBeforeFault, hs, hp, hf]
  · cases hk : f.kind <;> decide

/-- Witness for C3 on the malformed test vector (a `PN` element declaring
eight value bytes with two remaining): default parsing fails, tolerant
parsing records the fault at offset 132 and keeps the salvaged element. -/
theorem claim_C3_witness :
    (parse malformedSample ⟨true, "memory"⟩ =
      .ok ⟨"memory", parsedBeforeFault malformedSample, true,
        some (FaultKind.describe .truncatedValue), 132⟩ ∧
      FaultKind.describe .truncatedValue ≠ "") ∧
    (parsedBeforeFault malformedSample).length = 1 :=
  ⟨claim_C3_keep_on_error_preserves_parsed malformedSample "memory"
    ⟨.truncatedValue, 132⟩ rfl, rfl⟩

/-! ## Claim C10: the image-conversion path rejects all negative frames -/

/-- C10: for every negative frame argument, including the `-1` sentinel
accepted by `to_array`, the image-conversion path (`DataSet.to_image`,
re-exported as `DicomFile.to_pil_image`) fails with `ValueError`: the
single-frame sentinel is not accepted there. -/
theorem claim_C10_to_image_rejects_negative_frames (ds : DataSet)
    (df : DicomFile) (frame : Int) (h : frame < 0)
    (window : Option (ℚ × ℚ)) (auto_window : Bool) :
    dataset_to_image ds frame window auto_window =
      .error (.valueError "frame must be >= 0") ∧
    df.to_pil_image frame window auto_window =
      .error (.valueError "frame must be >= 0") := by
  constructor
  · unfold dataset_to_image
    rw [if_pos h]
  · unfold DicomFile.to_pil_image dataset_to_image
    rw [if_pos h]

/-- Witness for C10: `frame = -1` is rejected by the image path on the
sample file, even though `to_array` accepts `-1` there (the sample is
single-frame). -/
theorem claim_C10_witness :
    (dataset_to_image sampleDataSet (-1) Option.none true =
      .error (.valueError "frame must be >= 0") ∧
    DicomFile.to_pil_image ⟨"memory", sampleDataSet, false, Option.none, 0⟩
        (-1) Option.none true =
      .error (.valueError "frame must be >= 0")) ∧
    to_array sampleDataSet (-1) false =
      .ok ⟨[4, 4], .int16, false, List.replicate 16 1⟩ :=
  ⟨claim_C10_to_image_rejects_negative_frames sampleDataSet
    ⟨"memory", sampleDataSet, false, Option.none, 0⟩ (-1) (by decide)
    Option.none true, by rfl⟩

/-! ## Frame-resolution lemmas -/

theorem resolveFrame_neg_one {n : Nat} (hn : n ≠ 1) :
    resolveFrame (-1) n =
      .error (.valueError "frame=-1 requires a single-frame image") := by
  simp [resolveFrame, hn]

theorem resolveFrame_lt_neg_one {frame : Int} {n : Nat} (h : frame < -1) :
    resolveFrame frame n =
      .error (.valueError "frame must be >= 0 or -1") := by
  have h1 : frame ≠ -1 := by omega
  have h2 : frame < 0 := by omega
  simp [resolveFrame, h1, h2]

theorem resolveFrame_oob {frame : Int} {n : Nat} (h0 : 0 ≤ frame)
    (hn : (n : Int) ≤ frame) :
    resolveFrame frame n =
      .error (.indexError "frame index out of range") := by
  have h1 : frame ≠ -1 := by omega
  have h2 : ¬frame < 0 := by omega
  have h3 : ¬frame.toNat < n := by omega
  simp [resolveFrame, h1, h2, h3]

/-! ## Claim C5: invalid frame arguments fail uniformly across entry points -/

/-- C5: for every decode entry point (`to_array`, `decode_into`,
`to_array_view`) and every frame argument: `frame = -1` denotes the
single frame and fails with `ValueError` when the image has more than one
frame; `frame ≥ number_of_frames` fails with the out-of-range
(IndexError) error; every negative frame other than `-1` fails with
`ValueError`; in each failure case the call returns that error and no
decode result. -/
theorem claim_C5_frame_resolution_errors (ds : DataSet) (g : Geom)
    (hg : geomOf ds = some g) (frame : Int) (out : Buffer) (scaled : Bool)
    (threads : Int) :
    (frame = -1 → g.nframes ≠ 1 →
      to_array ds frame scaled =
        .error (.valueError "frame=-1 requires a single-frame image") ∧
      decode_into ds out frame scaled threads =
        .error (.valueError "frame=-1 requires a single-frame image") ∧
      to_array_view ds frame =
        .error (.valueError "frame=-1 requires a single-frame image")) ∧
    (frame < -1 →
      to_array ds frame scaled =
        .error (.valueError "frame must be >= 0 or -1") ∧
      decode_into ds out frame scaled threads =
        .error (.valueError "frame must be >= 0 or -1") ∧
      to_array_view ds frame =
        .error (.valueError "frame must be >= 0 or -1")) ∧
    (0 ≤ frame → (g.nframes : Int) ≤ frame →
      to_array ds frame scaled =
        .error (.indexError "frame index out of range") ∧
      decode_into ds out frame scaled threads =
        .error (.indexError "frame index out of range") ∧
      to_array_view ds frame =
        .error (.indexError "frame index out of range")) := by
  refine ⟨?_, ?_, ?_⟩
  · intro hf hn
    subst hf
    have hr := resolveFrame_neg_one (n := g.nframes) hn
    exact ⟨by simp [to_array, hg, hr], by simp [decode_into, hg, hr],
      by simp [to_array_view, hg, hr]⟩
  · intro hf
    have hr := resolveFrame_lt_neg_one (n := g.nframes) hf
    exact ⟨by simp [to_array, hg, hr], by simp [decode_into, hg, hr],
      by simp [to_array_view, hg, hr]⟩
  · intro h0 hn
    have hr := resolveFrame_oob (n := g.nframes) h0 hn
    exact ⟨by simp [to_array, hg, hr], by simp [decode_into, hg, hr],
      by simp [to_array_view, hg, hr]⟩

/-- Witness for C5 on the sample file: `frame = -2` fails with
`ValueError` on all three entry points. -/
theorem claim_C5_witness :
    to_array sampleDataSet (-2) false =
      .error (.valueError "frame must be >= 0 or -1") ∧
    decode_into sampleDataSet sampleBuf (-2) false 1 =
      .error (.valueError "frame must be >= 0 or -1") ∧
    to_array_view sampleDataSet (-2) =
      .error (.valueError "frame must be >= 0 or -1") :=
  (claim_C5_frame_resolution_errors sampleDataSet ⟨4, 4, 1, 16, 1, 0, 1⟩ rfl
    (-2) sampleBuf false 1).2.1 (by decide)

/-! ## Claim C4: scaling applies the rescale or falls back silently -/

theorem dtypeOf_ne_float32 {g : Geom} {dt : DType} (h : dtypeOf g = some dt) :
    dt ≠ .float32 := by
  intro hf
  subst hf
  unfold dtypeOf at h
  split_ifs at h <;> simp_all

/-- C4: for every decodable frame, `to_array` with `scaled = true` on a
data set carrying modality rescale metadata returns a floating-point
array with the rescale applied; on a data set without rescale metadata
the same call does not fail and returns the native integer-typed array
unchanged (scaling is a silent no-op). -/
theorem claim_C4_scaled_rescale_or_noop (ds : DataSet) (frame : Int)
    (arr : NDArr) (h : to_array ds frame false = .ok arr) :
    (∀ s i, rescaleOf ds = some (s, i) →
      to_array ds frame true =
        .ok ⟨arr.shape, .float32, false, arr.data.map (fun v => s * v + i)⟩) ∧
    (rescaleOf ds = Option.none →
      to_array ds frame true = .ok arr ∧ arr.dtype ≠ .float32) := by
  cases hg : geomOf ds with
  | none => simp [to_array, hg] at h
  | some g =>
  cases hr : resolveFrame frame g.nframes with
  | error e => simp [to_array, hg, hr] at h
  | ok fi =>
  cases hd : dtypeOf g with
  | none => simp [to_array, hg, hr, hd] at h
  | some dt =>
  cases hdec : decodeFrame ds g dt fi with
  | error e => simp [to_array, hg, hr, hd, hdec] at h
  | ok data =>
  have h' : (Except.ok (⟨shapeOf g, dt, false, data⟩ : NDArr) :
      Except PyErr NDArr) = .ok arr := by
    rw [← h]
    simp [to_array, hg, hr, hd, hdec]
  injection h' with h''
  subst h''
  constructor
  · intro s i hres
    simp [to_array, hg, hr, hd, hdec, hres]
  · intro hres
    refine ⟨by simp [to_array, hg, hr, hd, hdec, hres], ?_⟩
    simpa using dtypeOf_ne_float32 hd

/-- Witness for C4, both sides: on the sample (identity rescale present)
scaling promotes to float32; with the rescale elements removed scaling is
a no-op preserving int16. -/
theorem claim_C4_witness :
    (to_array sampleDataSet 0 true =
      .ok ⟨([4, 4] : List Nat), .float32, false,
        (List.replicate 16 (1 : ℚ)).map (fun v => 1 * v + 0)⟩) ∧
    (to_array sampleNoRescale 0 true =
        .ok ⟨([4, 4] : List Nat), .int16, false, List.replicate 16 (1 : ℚ)⟩ ∧
      NDArr.dtype ⟨([4, 4] : List Nat), .int16, false, List.replicate 16 (1 : ℚ)⟩ ≠
        .float32) :=
  ⟨(claim_C4_scaled_rescale_or_noop sampleDataSet 0
      ⟨[4, 4], .int16, false, List.replicate 16 1⟩ (by rfl)).1 1 0 (by rfl),
    (claim_C4_scaled_rescale_or_noop sampleNoRescale 0
      ⟨[4, 4], .int16, false, List.replicate 16 1⟩ (by rfl)).2 (by rfl)⟩

/-! ## Claim C6: `decode_into` buffer validation and exact filling -/

/-- C6: `decode_into` fails with `TypeError` on a non-writable or
non-contiguous buffer; with `ValueError` (before any decode result is
produced) whenever the buffer's shape or dtype differs from the frame's
decoded layout; and a matching writable contiguous buffer is filled with
exactly the values `to_array` would produce for the same frame and
scaled flag. -/
theorem claim_C6_decode_into_buffer_validation (ds : DataSet) (out : Buffer)
    (frame : Int) (scaled : Bool) (threads : Int) (g : Geom) (fi : Nat)
    (dt : DType) (hg : geomOf ds = some g)
    (hr : resolveFrame frame g.nframes = .ok fi) (hd : dtypeOf g = some dt)
    (ht : -1 ≤ threads) :
    ((out.writable = false ∨ out.c_contiguous = false) →
      decode_into ds out frame scaled threads =
        .error (.typeError "decode_into requires a writable C-contiguous buffer")) ∧
    (out.writable = true → out.c_contiguous = true →
      ¬(out.shape = shapeOf g ∧ out.dtype = expectedDtype ds dt scaled) →
      decode_into ds out frame scaled threads =
        .error (.valueError "output buffer shape/dtype mismatch")) ∧
    (out.writable = true → out.c_contiguous = true →
      ∀ r, decode_into ds out frame scaled threads = .ok r →
        ∃ a, to_array ds frame scaled = .ok a ∧ r.data = a.data) := by
  have hth : ¬threads < -1 := by omega
  refine ⟨?_, ?_, ?_⟩
  · intro hw
    have hnw : ¬(out.writable = true ∧ out.c_contiguous = true) := by
      rcases hw with h1 | h1 <;> simp [h1]
    simp [decode_into, hg, hr, hd, hth, hnw]
  · intro hw hc hmm
    unfold expectedDtype at hmm
    cases hres : (if scaled = true then rescaleOf ds else Option.none) with
    | none =>
      rw [hres] at hmm
      simp [decode_into, hg, hr, hd, hth, hw, hc, hres, hmm]
    | some si =>
      obtain ⟨s, i⟩ := si
      rw [hres] at hmm
      simp [decode_into, hg, hr, hd, hth, hw, hc, hres, hmm]
  · intro hw hc r hok
    cases hres : (if scaled = true then rescaleOf ds else Option.none) with
    | none =>
      by_cases hsh : out.shape = shapeOf g ∧ out.dtype = dt
      · cases hdec : decodeFrame ds g dt fi with
        | error e =>
          simp [decode_into, hg, hr, hd, hth, hw, hc, hres, hsh, hdec] at hok
        | ok data =>
          have h' : (Except.ok { out with data := data } :
              Except PyErr Buffer) = .ok r := by
            rw [← hok]
            simp [decode_into, hg, hr, hd, hth, hw, hc, hres, hsh, hdec]
          injection h' with h''
          subst h''
          exact ⟨⟨shapeOf g, dt, false, data⟩,
            by simp [to_array, hg, hr, hd, hdec, hres], rfl⟩
      · simp [decode_into, hg, hr, hd, hth, hw, hc, hres, hsh] at hok
    | some si =>
      obtain ⟨s, i⟩ := si
      by_cases hsh : out.shape = shapeOf g ∧ out.dtype = DType.float32
      · cases hdec : decodeFrame ds g dt fi with
        | error e =>
          simp [decode_into, hg, hr, hd, hth, hw, hc, hres, hsh, hdec] at hok
        | ok data =>
          have h' : (Except.ok { out with data := data.map (fun v => s * v + i) } :
              Except PyErr Buffer) = .ok r := by
            rw [← hok]
            simp [decode_into, hg, hr, hd, hth, hw, hc, hres, hsh, hdec]
          injection h' with h''
          subst h''
          exact ⟨⟨shapeOf g, .float32, false, data.map (fun v => s * v + i)⟩,
            by simp [to_array, hg, hr, hd, hdec, hres], rfl⟩
      · simp [decode_into, hg, hr, hd, hth, hw, hc, hres, hsh] at hok

/-- Witness for C6: a non-writable sample buffer fails with `TypeError`,
a 4×3 buffer fails with `ValueError`, and the matching sample buffer is
filled with `to_array`'s values. -/
theorem claim_C6_witness :
    (decode_into sampleDataSet ⟨7, [4, 4], .int16, false, true, []⟩ 0 false 1 =
      .error (.typeError "decode_into requires a writable C-contiguous buffer")) ∧
    (decode_into sampleDataSet ⟨7, [4, 3], .int16, true, true, []⟩ 0 false 1 =
      .error (.valueError "output buffer shape/dtype mismatch")) ∧
    (∃ a, to_array sampleDataSet 0 false = .ok a ∧
      Buffer.data ⟨7, [4, 4], .int16, true, true, List.replicate 16 1⟩ = a.data) := by
  refine ⟨?_, ?_, ?_⟩
  · exact (claim_C6_decode_into_buffer_validation sampleDataSet
      ⟨7, [4, 4], .int16, false, true, []⟩ 0 false 1 ⟨4, 4, 1, 16, 1, 0, 1⟩ 0
      .int16 rfl rfl rfl (by decide)).1 (Or.inl rfl)
  · exact (claim_C6_decode_into_buffer_validation sampleDataSet
      ⟨7, [4, 3], .int16, true, true, []⟩ 0 false 1 ⟨4, 4, 1, 16, 1, 0, 1⟩ 0
      .int16 rfl rfl rfl (by decide)).2.1 rfl rfl (by decide)
  · exact (claim_C6_decode_into_buffer_validation sampleDataSet sampleBuf
      0 false 1 ⟨4, 4, 1, 16, 1, 0, 1⟩ 0 .int16 rfl rfl rfl (by decide)).2.2
      rfl rfl ⟨7, [4, 4], .int16, true, true, List.replicate 16 1⟩ (by rfl)

/-! ## Claim C7: the zero-copy view agrees with the allocating decode -/

/-- C7: whenever `to_array_view` succeeds on a frame of an uncompressed
transfer syntax, the read-only zero-copy view it returns is element-wise
equal — same shape, same dtype, same values — to the freshly allocated
array `to_array` returns for the same frame with `scaled = false`. -/
theorem claim_C7_to_array_view_matches_to_array (ds : DataSet) (frame : Int)
    (v : NDArr) (h : to_array_view ds frame = .ok v) :
    ∃ a, to_array ds frame false = .ok a ∧ v.shape = a.shape ∧
      v.dtype = a.dtype ∧ v.data = a.data ∧ v.readonly = true ∧
      a.readonly = false := by
  cases hg : geomOf ds with
  | none => simp [to_array_view, hg] at h
  | some g =>
  cases hr : resolveFrame frame g.nframes with
  | error e => simp [to_array_view, hg, hr] at h
  | ok fi =>
  cases hd : dtypeOf g with
  | none => simp [to_array_view, hg, hr, hd] at h
  | some dt =>
  by_cases hc : codecFor (transfer_syntax_of ds) = some Codec.native
  case neg => simp [to_array_view, hg, hr, hd, hc] at h
  case pos =>
  cases hpx : pixelDataBytes ds with
  | none => simp [to_array_view, hg, hr, hd, hc, hpx] at h
  | some d =>
  by_cases hlen : (fi + 1) * frameByteCount g ≤ d.length
  case neg => simp [to_array_view, hg, hr, hd, hc, hpx, hlen] at h
  case pos =>
  have h' : (Except.ok (⟨shapeOf g, dt, true,
      interpBytes dt ((d.drop (fi * frameByteCount g)).take (frameByteCount g))⟩ :
      NDArr) : Except PyErr NDArr) = .ok v := by
    rw [← h]
    simp [to_array_view, hg, hr, hd, hc, hpx, hlen]
  injection h' with h''
  subst h''
  refine ⟨⟨shapeOf g, dt, false,
    interpBytes dt ((d.drop (fi * frameByteCount g)).take (frameByteCount g))⟩,
    ?_, rfl, rfl, rfl, rfl, rfl⟩
  simp [to_array, hg, hr, hd, decodeFrame, hc, decodeFrameNative, hpx, hlen]

/-- Witness for C7: the sample's zero-copy view equals its allocated
decode. -/
theorem claim_C7_witness :
    ∃ a, to_array sampleDataSet 0 false = .ok a ∧
      NDArr.shape ⟨[4, 4], .int16, true, List.replicate 16 1⟩ = a.shape ∧
      NDArr.dtype ⟨[4, 4], .int16, true, List.replicate 16 1⟩ = a.dtype ∧
      NDArr.data ⟨[4, 4], .int16, true, List.replicate 16 1⟩ = a.data ∧
      NDArr.readonly ⟨[4, 4], .int16, true, List.replicate 16 1⟩ = true ∧
      a.readonly = false :=
  claim_C7_to_array_view_matches_to_array sampleDataSet 0
    ⟨[4, 4], .int16, true, List.replicate 16 1⟩ (by rfl)

/-! ## Claim C8: decode output is independent of the thread count -/

/-- C8: for every data set, frame and buffer and every pair of valid
thread counts, `decode_into` produces the same result: threading may
change only decode speed, never output values. -/
theorem claim_C8_decode_independent_of_threads (ds : DataSet) (out : Buffer)
    (frame : Int) (scaled : Bool) (t1 t2 : Int) (h1 : -1 ≤ t1) (h2 : -1 ≤ t2) :
    decode_into ds out frame scaled t1 = decode_into ds out frame scaled t2 := by
  cases hg : geomOf ds with
  | none => simp [decode_into, hg]
  | some g =>
    cases hr : resolveFrame frame g.nframes with
    | error e => simp [decode_into, hg, hr]
    | ok fi =>
      cases hd : dtypeOf g with
      | none => simp [decode_into, hg, hr, hd]
      | some dt =>
        have e1 : ¬t1 < -1 := by omega
        have e2 : ¬t2 < -1 := by omega
        simp [decode_into, hg, hr, hd, e1, e2]

/-- Witness for C8: one thread and four threads produce the same result
on the sample decode. -/
theorem claim_C8_witness :
    decode_into sampleDataSet sampleBuf 0 false 1 =
      decode_into sampleDataSet sampleBuf 0 false 4 :=
  claim_C8_decode_independent_of_threads sampleDataSet sampleBuf 0 false 1 4
    (by decide) (by decide)

/-! ## Claim C9: `decode_into` fills and returns the caller's buffer -/

/-- C9: every successful `decode_into` returns the very buffer object the
caller supplied — same identity, layout and flags — with only its
contents replaced, so callers can rely on in-place filling. -/
theorem claim_C9_decode_into_returns_callers_buffer (ds : DataSet)
    (out : Buffer) (frame : Int) (scaled : Bool) (threads : Int) (r : Buffer)
    (h : decode_into ds out frame scaled threads = .ok r) :
    r.id = out.id ∧ r.shape = out.shape ∧ r.dtype = out.dtype ∧
    r.writable = out.writable ∧ r.c_contiguous = out.c_contiguous := by
  unfold decode_into at h
  repeat' split at h
  all_goals first
    | exact Except.noConfusion h
    | (injection h with h'; subst h'; exact ⟨rfl, rfl, rfl, rfl, rfl⟩)

/-- Witness for C9: the successful sample decode returns a buffer with
the caller's identity token and layout. -/
theorem claim_C9_witness :
    (⟨7, [4, 4], .int16, true, true, List.replicate 16 1⟩ : Buffer).id =
      sampleBuf.id ∧
    (⟨7, [4, 4], .int16, true, true, List.replicate 16 1⟩ : Buffer).shape =
      sampleBuf.shape ∧
    (⟨7, [4, 4], .int16, true, true, List.replicate 16 1⟩ : Buffer).dtype =
      sampleBuf.dtype ∧
    (⟨7, [4, 4], .int16, true, true, List.replicate 16 1⟩ : Buffer).writable =
      sampleBuf.writable ∧
    (⟨7, [4, 4], .int16, true, true, List.replicate 16 1⟩ : Buffer).c_contiguous =
      sampleBuf.c_contiguous :=
  claim_C9_decode_into_returns_callers_buffer sampleDataSet sampleBuf 0 false 1
    ⟨7, [4, 4], .int16, true, true, List.replicate 16 1⟩ (by rfl)

end DicomSdl
